import Mathlib

/-!
# Verification of the `eelf` ELF codec

A shallow embedding of the `eelf` repository (an ELF object-file reader and
builder) together with proofs about the properties its specification states.

Machine integers are modelled as `Nat` with explicit `% 2^w` where overflow or
truncation matters.  Rust byte buffers (`&[u8]` / `Vec<u8>`) are `List Nat`
(each element a byte value).  Fallible Rust code (`Result`, panicking
`assert!` / `unwrap`) is modelled with `Except` / `Option`, where `none`
stands for a panic.
-/

deriving instance DecidableEq for Except

namespace Eelf

/-- Byte order.  From `src/consts.rs` (`enum Endianness`). -/
inductive Endianness where
  | little
  | big
deriving DecidableEq

/-- `Endianness::u16_to_bytes` (src/consts.rs): a 16-bit value as two bytes. -/
def u16Bytes : Endianness → Nat → List Nat
  | .little, v => [v % 256, v / 256 % 256]
  | .big,    v => [v / 256 % 256, v % 256]

/-- `Endianness::u32_to_bytes` (src/consts.rs): a 32-bit value as four bytes. -/
def u32Bytes : Endianness → Nat → List Nat
  | .little, v => [v % 256, v / 256 % 256, v / 256 ^ 2 % 256, v / 256 ^ 3 % 256]
  | .big,    v => [v / 256 ^ 3 % 256, v / 256 ^ 2 % 256, v / 256 % 256, v % 256]

/-- `Endianness::u64_to_bytes` (src/consts.rs): a 64-bit value as eight bytes. -/
def u64Bytes : Endianness → Nat → List Nat
  | .little, v =>
      [v % 256, v / 256 % 256, v / 256 ^ 2 % 256, v / 256 ^ 3 % 256,
       v / 256 ^ 4 % 256, v / 256 ^ 5 % 256, v / 256 ^ 6 % 256, v / 256 ^ 7 % 256]
  | .big,    v =>
      [v / 256 ^ 7 % 256, v / 256 ^ 6 % 256, v / 256 ^ 5 % 256, v / 256 ^ 4 % 256,
       v / 256 ^ 3 % 256, v / 256 ^ 2 % 256, v / 256 % 256, v % 256]

/-- Little-endian byte recomposition (`uNN::from_le_bytes`). -/
def leNat : List Nat → Nat
  | [] => 0
  | b :: bs => b % 256 + 256 * leNat bs

/-- `Endianness::uNN_from_bytes` (src/consts.rs): recompose bytes per byte order. -/
def natFromBytes : Endianness → List Nat → Nat
  | .little, l => leNat l
  | .big,    l => leNat l.reverse

/-- `ELF_MAGIC` (src/consts.rs): `[0x7f, b'E', b'L', b'F']`. -/
def elfMagic : List Nat := [0x7f, 0x45, 0x4c, 0x46]

/-- `ParseError` (src/reader.rs). -/
inductive ParseError where
  | invalidHeader
  | invalidValue (field : String)
  | unexpectedEof
deriving DecidableEq

/-- `ElfReader` (src/reader.rs): a borrowed buffer plus the decoded
identification facts. -/
structure ElfReader where
  bytes : List Nat
  endianness : Endianness
  is64bit : Bool
deriving DecidableEq

/-- The `bytes.get(EI_CLASS)` match of `ElfReader::new` (src/reader.rs:58-63);
`EI_CLASS = 4`. -/
def classOf (bytes : List Nat) : Except ParseError Bool :=
  match bytes[4]? with
  | none => .error .unexpectedEof
  | some c =>
      if c = 1 then .ok false
      else if c = 2 then .ok true
      else .error (.invalidValue "ei_class")

/-- The `bytes.get(EI_DATA)` match of `ElfReader::new` (src/reader.rs:65-70);
`EI_DATA = 5`. -/
def dataOf (bytes : List Nat) : Except ParseError Endianness :=
  match bytes[5]? with
  | none => .error .unexpectedEof
  | some d =>
      if d = 1 then .ok .little
      else if d = 2 then .ok .big
      else .error (.invalidValue "ei_data")

/-- The `bytes.get(EI_VERSION)` match of `ElfReader::new` (src/reader.rs:72-76);
`EI_VERSION = 6`. -/
def versionOf (bytes : List Nat) : Except ParseError Unit :=
  match bytes[6]? with
  | none => .error .unexpectedEof
  | some v =>
      if v = 1 then .ok ()
      else .error (.invalidValue "ei_version")

/-- `ElfReader::new` (src/reader.rs:53-83): magic check, then class, byte
order and format-version bytes, in that order. -/
def ElfReader.new (bytes : List Nat) : Except ParseError ElfReader :=
  if bytes.take 4 ≠ elfMagic then .error .invalidHeader
  else do
    let is64 ← classOf bytes
    let e ← dataOf bytes
    versionOf bytes
    pure ⟨bytes, e, is64⟩

/-- C7: Reader construction fails with an invalid-header error when the buffer
does not start with the four magic bytes `0x7F 'E' 'L' 'F'`; fails with an
invalid-value error when the class byte is neither 1 nor 2, the byte-order
byte is neither 1 nor 2, or the format-version byte is not 1; fails with an
end-of-file error when any of those bytes is missing; otherwise succeeds. -/
theorem reader_new_validation (bytes : List Nat) :
    (bytes.take 4 ≠ elfMagic → ElfReader.new bytes = .error .invalidHeader)
    ∧ (bytes.take 4 = elfMagic →
        ((bytes[4]? = none → ElfReader.new bytes = .error .unexpectedEof)
        ∧ (∀ c, bytes[4]? = some c → c ≠ 1 → c ≠ 2 →
            ElfReader.new bytes = .error (.invalidValue "ei_class"))
        ∧ (∀ c, bytes[4]? = some c → (c = 1 ∨ c = 2) →
            ((bytes[5]? = none → ElfReader.new bytes = .error .unexpectedEof)
            ∧ (∀ d, bytes[5]? = some d → d ≠ 1 → d ≠ 2 →
                ElfReader.new bytes = .error (.invalidValue "ei_data"))
            ∧ (∀ d, bytes[5]? = some d → (d = 1 ∨ d = 2) →
                ((bytes[6]? = none → ElfReader.new bytes = .error .unexpectedEof)
                ∧ (∀ v, bytes[6]? = some v → v ≠ 1 →
                    ElfReader.new bytes = .error (.invalidValue "ei_version"))
                ∧ (bytes[6]? = some 1 →
                    ∃ r, ElfReader.new bytes = .ok r ∧ r.bytes = bytes))))))) := by
  constructor
  · intro h
    simp [ElfReader.new, h]
  · intro hmagic
    refine ⟨?_, ?_, ?_⟩
    · intro h4
      simp [ElfReader.new, hmagic, classOf, h4, Bind.bind, Except.bind, Functor.map, Except.map, Pure.pure, Except.pure]
    · intro c h4 hc1 hc2
      simp [ElfReader.new, hmagic, classOf, h4, hc1, hc2, Bind.bind, Except.bind, Functor.map, Except.map, Pure.pure, Except.pure]
    · intro c h4 hc
      refine ⟨?_, ?_, ?_⟩
      · intro h5
        rcases hc with hc | hc <;>
          simp [ElfReader.new, hmagic, classOf, dataOf, h4, h5, hc, Bind.bind, Except.bind, Functor.map, Except.map, Pure.pure, Except.pure]
      · intro d h5 hd1 hd2
        rcases hc with hc | hc <;>
          simp [ElfReader.new, hmagic, classOf, dataOf, h4, h5, hc, hd1, hd2, Bind.bind, Except.bind, Functor.map, Except.map, Pure.pure, Except.pure]
      · intro d h5 hd
        refine ⟨?_, ?_, ?_⟩
        · intro h6
          rcases hc with hc | hc <;> rcases hd with hd | hd <;>
            simp [ElfReader.new, hmagic, classOf, dataOf, versionOf, h4, h5, h6, hc, hd,
              Bind.bind, Except.bind, Functor.map, Except.map, Pure.pure, Except.pure]
        · intro v h6 hv
          rcases hc with hc | hc <;> rcases hd with hd | hd <;>
            simp [ElfReader.new, hmagic, classOf, dataOf, versionOf, h4, h5, h6, hc, hd, hv,
              Bind.bind, Except.bind, Functor.map, Except.map, Pure.pure, Except.pure]
        · intro h6
          rcases hc with hc | hc <;> rcases hd with hd | hd <;>
            simp [ElfReader.new, hmagic, classOf, dataOf, versionOf, h4, h5, h6, hc, hd,
              Bind.bind, Except.bind, Functor.map, Except.map, Pure.pure, Except.pure]

/-- Witness for C7 at concrete buffers: each failure kind and a success. -/
theorem reader_new_validation_witness :
    ElfReader.new [] = .error .invalidHeader
    ∧ ElfReader.new [0x7f, 0x45, 0x4c, 0x46] = .error .unexpectedEof
    ∧ ElfReader.new [0x7f, 0x45, 0x4c, 0x46, 3] = .error (.invalidValue "ei_class")
    ∧ ElfReader.new [0x7f, 0x45, 0x4c, 0x46, 2, 3] = .error (.invalidValue "ei_data")
    ∧ ElfReader.new [0x7f, 0x45, 0x4c, 0x46, 2, 2, 2] = .error (.invalidValue "ei_version")
    ∧ ∃ r, ElfReader.new [0x7f, 0x45, 0x4c, 0x46, 2, 2, 1] = .ok r := by
  refine ⟨(reader_new_validation []).1 (by decide),
    ((reader_new_validation [0x7f, 0x45, 0x4c, 0x46]).2 (by decide)).1 (by decide),
    ((reader_new_validation [0x7f, 0x45, 0x4c, 0x46, 3]).2 (by decide)).2.1 3 (by decide)
      (by decide) (by decide),
    (((reader_new_validation [0x7f, 0x45, 0x4c, 0x46, 2, 3]).2 (by decide)).2.2 2 (by decide)
      (Or.inr (by decide))).2.1 3 (by decide) (by decide) (by decide),
    ((((reader_new_validation [0x7f, 0x45, 0x4c, 0x46, 2, 2, 2]).2 (by decide)).2.2 2 (by decide)
      (Or.inr (by decide))).2.2 2 (by decide) (Or.inr (by decide))).2.1 2 (by decide) (by decide),
    ?_⟩
  obtain ⟨r, hr, -⟩ := ((((reader_new_validation [0x7f, 0x45, 0x4c, 0x46, 2, 2, 1]).2
    (by decide)).2.2 2 (by decide) (Or.inr (by decide))).2.2 2 (by decide)
    (Or.inr (by decide))).2.2 (by decide)
  exact ⟨r, hr⟩

/-- `ELF32_HEADER_SIZE = 52` / `ELF64_HEADER_SIZE = 64` (src/consts.rs). -/
def headerSize (is64 : Bool) : Nat := if is64 then 64 else 52

/-- `ELF32_SECTION_HEADER_SIZE = 40` / `ELF64_SECTION_HEADER_SIZE = 64`
(src/consts.rs). -/
def sectionHeaderSize (is64 : Bool) : Nat := if is64 then 64 else 40

/-- `ELF32_PROGRAM_HEADER_SIZE = 32` / `ELF64_PROGRAM_HEADER_SIZE = 56`
(src/consts.rs). -/
def programHeaderSize (is64 : Bool) : Nat := if is64 then 56 else 32

/-- `ElfReader::read_u16/u32/u64` (src/reader.rs:106-124): `bytes.get(i..i+n)`
decoded per the configured byte order; `none` when the range is out of
bounds. -/
def ElfReader.readN (r : ElfReader) (i n : Nat) : Option Nat :=
  if i + n ≤ r.bytes.length then some (natFromBytes r.endianness ((r.bytes.drop i).take n))
  else none

/-- `Header::new` (src/reader.rs:158-169): the only construction check is that
the buffer holds a full class-sized header. -/
def headerCheck (r : ElfReader) : Except ParseError Unit :=
  if r.bytes.length < headerSize r.is64bit then .error .unexpectedEof else .ok ()

/-- `Header::shoff` (src/reader.rs:237-243): u64 at 40 (64-bit) or u32 at 32
(32-bit).  The `Option` models the `unwrap` of the raw read. -/
def Header.shoff (r : ElfReader) : Option Nat :=
  if r.is64bit then r.readN 40 8 else r.readN 32 4

/-- `Header::shnum` (src/reader.rs:291-297): u16 at 60 (64-bit) or 48 (32-bit). -/
def Header.shnum (r : ElfReader) : Option Nat :=
  if r.is64bit then r.readN 60 2 else r.readN 48 2

/-- `Header::shentsize` (src/reader.rs:282-288): u16 at 58 (64-bit) or 46
(32-bit). -/
def Header.shentsize (r : ElfReader) : Option Nat :=
  if r.is64bit then r.readN 58 2 else r.readN 46 2

/-- `Header::phoff` (src/reader.rs:226-232): u64 at 32 (64-bit) or u32 at 28
(32-bit). -/
def Header.phoff (r : ElfReader) : Option Nat :=
  if r.is64bit then r.readN 32 8 else r.readN 28 4

/-- `Header::phnum` (src/reader.rs:273-279): u16 at 56 (64-bit) or 44 (32-bit). -/
def Header.phnum (r : ElfReader) : Option Nat :=
  if r.is64bit then r.readN 56 2 else r.readN 44 2

/-- `Header::phentsize` (src/reader.rs:264-270): u16 at 54 (64-bit) or 42
(32-bit). -/
def Header.phentsize (r : ElfReader) : Option Nat :=
  if r.is64bit then r.readN 54 2 else r.readN 42 2

/-- The resolved state of the `Sections` table view (src/reader.rs:347-352). -/
structure SectionsView where
  shoff : Nat
  shnum : Nat
  entSize : Nat
deriving DecidableEq

/-- `Sections::new` (src/reader.rs:355-376).  The outer `Option` is `none`
where the Rust code would panic (an `unwrap` of a header-field read), which is
unreachable once the header length check has passed.  The bounds check at
reader.rs:366 computes `shoff + shnum * usize::from(header_size)` in `usize`
(64-bit): for an `e_shoff` within `shnum * entry_size` of `2^64` the sum
wraps around, which is modelled by the explicit `% 2 ^ 64` (release-build
semantics; a debug build panics at the overflow instead). -/
def Sections.new (r : ElfReader) : Option (Except ParseError SectionsView) :=
  match headerCheck r with
  | .error e => some (.error e)
  | .ok _ =>
    match Header.shoff r, Header.shnum r, Header.shentsize r with
    | some shoff, some shnum, some shent =>
        some (
          if shent ≠ sectionHeaderSize r.is64bit then .error (.invalidValue "e_shentsize")
          else if (shoff + shnum * sectionHeaderSize r.is64bit) % 2 ^ 64
              > r.bytes.length then
            .error .unexpectedEof
          else .ok ⟨shoff, shnum, sectionHeaderSize r.is64bit⟩)
    | _, _, _ => none

/-- `Sections::get` (src/reader.rs:379-390): bounds-checked entry lookup,
yielding the entry's byte offset in the buffer. -/
def SectionsView.get (v : SectionsView) (index : Nat) : Option Nat :=
  if index ≥ v.shnum then none
  else some (v.shoff + v.entSize * index)

/-- The resolved state of the `Segments` table view (src/reader.rs:550-555). -/
structure SegmentsView where
  phoff : Nat
  phnum : Nat
  entSize : Nat
deriving DecidableEq

/-- `Segments::new` (src/reader.rs:558-579), exactly parallel to
`Sections::new`, including the wrapping `usize` sum of the bounds check
(reader.rs:569), modelled by the explicit `% 2 ^ 64`. -/
def Segments.new (r : ElfReader) : Option (Except ParseError SegmentsView) :=
  match headerCheck r with
  | .error e => some (.error e)
  | .ok _ =>
    match Header.phoff r, Header.phnum r, Header.phentsize r with
    | some phoff, some phnum, some phent =>
        some (
          if phent ≠ programHeaderSize r.is64bit then .error (.invalidValue "e_phentsize")
          else if (phoff + phnum * programHeaderSize r.is64bit) % 2 ^ 64
              > r.bytes.length then
            .error .unexpectedEof
          else .ok ⟨phoff, phnum, programHeaderSize r.is64bit⟩)
    | _, _, _ => none

/-- `Segments::get` (src/reader.rs:582-593). -/
def SegmentsView.get (v : SegmentsView) (index : Nat) : Option Nat :=
  if index ≥ v.phnum then none
  else some (v.phoff + v.entSize * index)

/-- C8 (amended): Creating the section-table or program-header-table view
fails with an invalid-value error when the header's declared per-entry size
differs from the fixed entry size for the file's class; fails with an
end-of-file error when the 64-bit (`usize`, wrapping) sum of the table offset
plus count times entry size exceeds the buffer length — so a table offset
large enough to wrap the sum past `2^64` escapes the check and the view is
created; and on a successfully created view an entry lookup by index returns
no entry (not an error) exactly when the index is at or beyond the declared
count. -/
theorem table_view_validation (r : ElfReader) (shoff shnum shent phoff phnum phent : Nat)
    (hh : headerCheck r = .ok ())
    (hso : Header.shoff r = some shoff) (hsn : Header.shnum r = some shnum)
    (hse : Header.shentsize r = some shent)
    (hpo : Header.phoff r = some phoff) (hpn : Header.phnum r = some phnum)
    (hpe : Header.phentsize r = some phent) :
    (shent ≠ sectionHeaderSize r.is64bit →
        Sections.new r = some (.error (.invalidValue "e_shentsize")))
    ∧ (shent = sectionHeaderSize r.is64bit →
        (shoff + shnum * sectionHeaderSize r.is64bit) % 2 ^ 64 > r.bytes.length →
        Sections.new r = some (.error .unexpectedEof))
    ∧ (∀ v, Sections.new r = some (.ok v) →
        v.shnum = shnum ∧ ∀ i, (v.get i = none ↔ shnum ≤ i))
    ∧ (phent ≠ programHeaderSize r.is64bit →
        Segments.new r = some (.error (.invalidValue "e_phentsize")))
    ∧ (phent = programHeaderSize r.is64bit →
        (phoff + phnum * programHeaderSize r.is64bit) % 2 ^ 64 > r.bytes.length →
        Segments.new r = some (.error .unexpectedEof))
    ∧ (∀ v, Segments.new r = some (.ok v) →
        v.phnum = phnum ∧ ∀ i, (v.get i = none ↔ phnum ≤ i)) := by
  refine ⟨?_, ?_, ?_, ?_, ?_, ?_⟩
  · intro hne
    simp only [Sections.new, hh, hso, hsn, hse, -Nat.reducePow]
    rw [if_pos hne]
  · intro heq hgt
    simp only [Sections.new, hh, hso, hsn, hse, -Nat.reducePow]
    rw [if_neg (fun hc => hc heq), if_pos hgt]
  · intro v hv
    simp only [Sections.new, hh, hso, hsn, hse, -Nat.reducePow,
      Option.some_inj] at hv
    by_cases h1 : shent = sectionHeaderSize r.is64bit
    · rw [if_neg (fun hc => hc h1)] at hv
      by_cases h2 : (shoff + shnum * sectionHeaderSize r.is64bit) % 2 ^ 64
          > r.bytes.length
      · rw [if_pos h2] at hv
        exact Except.noConfusion hv
      · rw [if_neg h2] at hv
        injection hv with hv2
        subst hv2
        refine ⟨rfl, fun i => ?_⟩
        simp [SectionsView.get, ge_iff_le]
    · rw [if_pos h1] at hv
      exact Except.noConfusion hv
  · intro hne
    simp only [Segments.new, hh, hpo, hpn, hpe, -Nat.reducePow]
    rw [if_pos hne]
  · intro heq hgt
    simp only [Segments.new, hh, hpo, hpn, hpe, -Nat.reducePow]
    rw [if_neg (fun hc => hc heq), if_pos hgt]
  · intro v hv
    simp only [Segments.new, hh, hpo, hpn, hpe, -Nat.reducePow,
      Option.some_inj] at hv
    by_cases h1 : phent = programHeaderSize r.is64bit
    · rw [if_neg (fun hc => hc h1)] at hv
      by_cases h2 : (phoff + phnum * programHeaderSize r.is64bit) % 2 ^ 64
          > r.bytes.length
      · rw [if_pos h2] at hv
        exact Except.noConfusion hv
      · rw [if_neg h2] at hv
        injection hv with hv2
        subst hv2
        refine ⟨rfl, fun i => ?_⟩
        simp [SegmentsView.get, ge_iff_le]
    · rw [if_pos h1] at hv
      exact Except.noConfusion hv

/-- A complete 64-byte 64-bit little-endian header whose `e_shoff` field is
`2^64 - 64` with `e_shnum = 1` and the correct `e_shentsize = 64`: the
mathematical bound `shoff + shnum * entry_size = 2^64` far exceeds the
64-byte buffer, but the `usize` sum wraps to 0. -/
def overflowReader : ElfReader :=
  ⟨[0x7f, 0x45, 0x4c, 0x46, 2, 1, 1, 0, 0, 0, 0, 0, 0, 0, 0, 0,
    0, 0, 0, 0, 1, 0, 0, 0, 0, 0, 0, 0, 0, 0, 0, 0,
    0, 0, 0, 0, 0, 0, 0, 0, 192, 255, 255, 255, 255, 255, 255, 255,
    0, 0, 0, 0, 64, 0, 56, 0, 0, 0, 64, 0, 1, 0, 0, 0], .little, true⟩

/-- Counterexample to C8 as stated: the claim demands an end-of-file error
whenever the table offset plus count times entry size exceeds the buffer
length, but on this file — `e_shoff = 2^64 - 64`, one declared section entry
of the correct size 64, a 64-byte buffer — the `usize` bounds sum wraps to 0
and `Sections::new` returns an out-of-bounds view instead of the error (a
debug build panics at the overflow; neither is the claimed EOF error). -/
theorem table_view_overflow_counterexample :
    Header.shoff overflowReader = some (2 ^ 64 - 64)
    ∧ Header.shnum overflowReader = some 1
    ∧ Header.shentsize overflowReader = some 64
    ∧ 2 ^ 64 - 64 + 1 * 64 > overflowReader.bytes.length
    ∧ Sections.new overflowReader = some (.ok ⟨2 ^ 64 - 64, 1, 64⟩) := by
  decide

/-- A concrete 52-byte 32-bit little-endian header whose `e_shentsize` field
is 39 (not the fixed 40) and whose `e_phentsize` field is the correct 32, with
zero counts and offsets. -/
def viewWitnessReader : ElfReader :=
  ⟨[0x7f, 0x45, 0x4c, 0x46, 1, 1, 1, 0, 0, 0, 0, 0, 0, 0, 0, 0,
    0, 0, 0, 0, 1, 0, 0, 0, 0, 0, 0, 0, 0, 0, 0, 0,
    0, 0, 0, 0, 0, 0, 0, 0, 52, 0, 32, 0, 0, 0, 39, 0,
    0, 0, 0, 0], .little, false⟩

/-- Witness for C8 at a concrete buffer: a mismatched section entry size is
rejected as invalid-value, while the matching program-header view is created
and its lookup at index 0 is empty (count is 0). -/
theorem table_view_validation_witness :
    Sections.new viewWitnessReader = some (.error (.invalidValue "e_shentsize"))
    ∧ Segments.new viewWitnessReader = some (.ok ⟨0, 0, 32⟩)
    ∧ SegmentsView.get ⟨0, 0, 32⟩ 0 = none := by
  have h := table_view_validation viewWitnessReader 0 0 39 0 0 32
    (by decide) (by decide) (by decide) (by decide) (by decide) (by decide) (by decide)
  have h2 := h.2.2.2.2.2 ⟨0, 0, 32⟩ (by decide)
  exact ⟨h.1 (by decide), by decide, (h2.2 0).mpr (by decide)⟩

/-- `Section::size` (src/reader.rs:486-492): `sh_size` of the section entry
at byte offset `so`: u64 at `so+32` (64-bit) or u32 at `so+20` (32-bit). -/
def sectionSize (r : ElfReader) (so : Nat) : Option Nat :=
  if r.is64bit then r.readN (so + 32) 8 else r.readN (so + 20) 4

/-- `Section::offset` (src/reader.rs:477-483): `sh_offset`: u64 at `so+24`
(64-bit) or u32 at `so+16` (32-bit). -/
def sectionOffset (r : ElfReader) (so : Nat) : Option Nat :=
  if r.is64bit then r.readN (so + 24) 8 else r.readN (so + 16) 4

/-- `Segment::filesz` (src/reader.rs:679-685): `p_filesz`: u64 at `so+32`
(64-bit) or u32 at `so+16` (32-bit). -/
def segmentFilesz (r : ElfReader) (so : Nat) : Option Nat :=
  if r.is64bit then r.readN (so + 32) 8 else r.readN (so + 16) 4

/-- `Segment::offset` (src/reader.rs:652-658): `p_offset`: u64 at `so+8`
(64-bit) or u32 at `so+4` (32-bit). -/
def segmentOffset (r : ElfReader) (so : Nat) : Option Nat :=
  if r.is64bit then r.readN (so + 8) 8 else r.readN (so + 4) 4

/-- Rust slice lookup `bytes.get(a..b)`: `none` when the range is out of
bounds. -/
def sliceGet (l : List Nat) (a b : Nat) : Option (List Nat) :=
  if a ≤ b ∧ b ≤ l.length then some ((l.drop a).take (b - a)) else none

/-- `Section::data` (src/reader.rs:532-545): empty slice when `sh_size` is 0,
otherwise `bytes.get(offset..offset+size)` with an end-of-file error when out
of bounds.  The outer `Option` is `none` where the Rust code would panic (an
`unwrap` of an entry-field read). -/
def Section.data (r : ElfReader) (so : Nat) : Option (Except ParseError (List Nat)) :=
  match sectionSize r so with
  | none => none
  | some sz =>
    if sz = 0 then some (.ok [])
    else
      match sectionOffset r so with
      | none => none
      | some off =>
          some (match sliceGet r.bytes off (off + sz) with
                | some l => .ok l
                | none => .error .unexpectedEof)

/-- `Segment::data` (src/reader.rs:719-732), exactly parallel to
`Section::data` with `p_filesz` / `p_offset`. -/
def Segment.data (r : ElfReader) (so : Nat) : Option (Except ParseError (List Nat)) :=
  match segmentFilesz r so with
  | none => none
  | some sz =>
    if sz = 0 then some (.ok [])
    else
      match segmentOffset r so with
      | none => none
      | some off =>
          some (match sliceGet r.bytes off (off + sz) with
                | some l => .ok l
                | none => .error .unexpectedEof)

/-- C9: For every section view and every segment view, the data accessor
returns the empty slice without validating the offset whenever the declared
size (`sh_size` / `p_filesz`) is zero; otherwise it returns exactly the bytes
of the range `[offset, offset+size)` of the underlying buffer, or an
end-of-file error when that range exceeds the buffer length. -/
theorem data_accessor_spec (r : ElfReader) (so sz off : Nat) :
    (sectionSize r so = some sz →
      ((sz = 0 → Section.data r so = some (.ok []))
      ∧ (sz ≠ 0 → sectionOffset r so = some off →
          ((off + sz ≤ r.bytes.length →
              Section.data r so = some (.ok ((r.bytes.drop off).take sz)))
          ∧ (r.bytes.length < off + sz →
              Section.data r so = some (.error .unexpectedEof))))))
    ∧ (segmentFilesz r so = some sz →
      ((sz = 0 → Segment.data r so = some (.ok []))
      ∧ (sz ≠ 0 → segmentOffset r so = some off →
          ((off + sz ≤ r.bytes.length →
              Segment.data r so = some (.ok ((r.bytes.drop off).take sz)))
          ∧ (r.bytes.length < off + sz →
              Segment.data r so = some (.error .unexpectedEof)))))) := by
  constructor
  · intro hsz
    refine ⟨fun h0 => by simp [Section.data, hsz, h0], fun hne hoff => ⟨?_, ?_⟩⟩
    · intro hle
      have : off ≤ off + sz := Nat.le_add_right off sz
      simp [Section.data, hsz, hne, hoff, sliceGet, this, hle, Nat.add_sub_cancel_left]
    · intro hgt
      have : ¬ (off + sz ≤ r.bytes.length) := by omega
      simp [Section.data, hsz, hne, hoff, sliceGet, this]
  · intro hsz
    refine ⟨fun h0 => by simp [Segment.data, hsz, h0], fun hne hoff => ⟨?_, ?_⟩⟩
    · intro hle
      have : off ≤ off + sz := Nat.le_add_right off sz
      simp [Segment.data, hsz, hne, hoff, sliceGet, this, hle, Nat.add_sub_cancel_left]
    · intro hgt
      have : ¬ (off + sz ≤ r.bytes.length) := by omega
      simp [Segment.data, hsz, hne, hoff, sliceGet, this]

/-- A concrete 24-byte little-endian 32-bit "entry" buffer: viewed as a
section entry at offset 0 it declares `sh_offset = 4`, `sh_size = 2`; viewed
as a segment entry at offset 0 it declares `p_offset = 30`, `p_filesz = 2`
(out of bounds). -/
def dataWitnessReader : ElfReader :=
  ⟨[9, 9, 9, 9, 30, 0, 0, 0, 8, 7, 6, 5, 4, 3, 2, 1,
    4, 0, 0, 0, 2, 0, 0, 0], .little, false⟩

/-- Witness for C9 at concrete inputs: an in-bounds section range is returned
exactly, and an out-of-bounds segment range is an end-of-file error.
Note `segmentFilesz` at entry offset 0 reads the same field bytes as
`sectionSize` here (both at byte 16+4.. for 32-bit: filesz at 16, size at 20);
the segment case uses `p_offset = 30` which exceeds the 24-byte buffer. -/
theorem data_accessor_spec_witness :
    Section.data dataWitnessReader 0 = some (.ok [30, 0])
    ∧ Segment.data dataWitnessReader 0 = some (.error .unexpectedEof) := by
  have h1 := (data_accessor_spec dataWitnessReader 0 2 4).1 (by decide)
  have h2 := (data_accessor_spec dataWitnessReader 0 4 30).2 (by decide)
  exact ⟨(h1.2 (by decide) (by decide)).1 (by decide),
    (h2.2 (by decide) (by decide)).2 (by decide)⟩

/-! ## Builder data model (src/builder.rs, src/consts.rs) -/

/-- `SectionKind` (src/consts.rs:158-193). -/
inductive SectionKind where
  | null | progbits | symbolTable | stringTable | rela | hash | dynamic | note
  | nobits | rel | shlib | dynSym | initArray | finiArray | preinitArray | group
  | symTabShndx
deriving DecidableEq

/-- The `sh_type` numeric value of a `SectionKind` (its `to_u32`). -/
def SectionKind.toU32 : SectionKind → Nat
  | .null => 0 | .progbits => 1 | .symbolTable => 2 | .stringTable => 3
  | .rela => 4 | .hash => 5 | .dynamic => 6 | .note => 7 | .nobits => 8
  | .rel => 9 | .shlib => 10 | .dynSym => 11 | .initArray => 14
  | .finiArray => 15 | .preinitArray => 16 | .group => 17 | .symTabShndx => 18

/-- `SymbolKind` (src/consts.rs:197-212). -/
inductive SymbolKind where
  | noType | object | func | section | file | common | tls
deriving DecidableEq

/-- The numeric value of a `SymbolKind` (its `to_u8`). -/
def SymbolKind.toU8 : SymbolKind → Nat
  | .noType => 0 | .object => 1 | .func => 2 | .section => 3
  | .file => 4 | .common => 5 | .tls => 6

/-- `ElfKind` (src/consts.rs:62-73). -/
inductive ElfKind where
  | none | relocatable | executable | dynamic | core
deriving DecidableEq

/-- The `e_type` numeric value of an `ElfKind` (its `to_u16`). -/
def ElfKind.toU16 : ElfKind → Nat
  | .none => 0 | .relocatable => 1 | .executable => 2 | .dynamic => 3 | .core => 4

/-- `SegmentKind` (src/consts.rs:137-154). -/
inductive SegmentKind where
  | null | load | dynamic | interp | note | shlib | phdr | tls
deriving DecidableEq

/-- The `p_type` numeric value of a `SegmentKind` (its `to_u32`). -/
def SegmentKind.toU32 : SegmentKind → Nat
  | .null => 0 | .load => 1 | .dynamic => 2 | .interp => 3
  | .note => 4 | .shlib => 5 | .phdr => 6 | .tls => 7

/-- `builder::Section` (src/builder.rs:623-640).  `flags` is the
`FlagSet<SectionFlag>` bitmask (`Alloc = 0x02` is bit 1); `data` the section's
payload bytes. -/
structure BSection where
  data : List Nat
  name : Nat
  kind : SectionKind
  flags : Nat
  vaddr : Nat
  info : Nat
  entsize : Nat
  alignment : Nat
deriving DecidableEq

/-- `builder::Symbol` (src/builder.rs:658-665). -/
structure Symbol where
  name : Nat
  value : Nat
  global : Bool
  kind : SymbolKind
  section_ : Nat
deriving DecidableEq

/-- `builder::RelaEntry` (src/builder.rs:669-676). -/
structure RelaEntry where
  offset : Nat
  info : Nat
  addend : Nat
deriving DecidableEq

/-- `builder::RelaTable` (src/builder.rs:644-648). -/
structure RelaTable where
  name : Nat
  target_section : Nat
  relocations : List RelaEntry
deriving DecidableEq

/-- `ElfBuilder` (src/builder.rs:34-44).  Strings are modelled by their UTF-8
byte lists (Rust `String` equality and `len()` are byte equality and byte
length). -/
structure ElfBuilder where
  sections : List BSection
  strings : List (List Nat)
  symbols : List Symbol
  relocations : List RelaTable
  entrypoint : Nat
  kind : ElfKind
  machine : Nat
  endianness : Endianness
  is64bit : Bool
deriving DecidableEq

/-- `ElfBuilder::new` (src/builder.rs:48-80): seeds the reserved null section,
the empty string and the reserved undefined symbol. -/
def ElfBuilder.new (kind : ElfKind) (machine : Nat) (is64bit : Bool)
    (endianness : Endianness) : ElfBuilder :=
  { sections := [{ data := [], name := 0, kind := .null, flags := 0, info := 0,
                   vaddr := 0, entsize := 0, alignment := 0 }],
    strings := [[]],
    symbols := [{ name := 0, value := 0, global := false, kind := .noType, section_ := 0 }],
    relocations := [], entrypoint := 0, kind, machine, endianness, is64bit }

/-- The running string-table byte size
`strings.iter().map(|s| s.len() + 1).sum()` (src/builder.rs:486). -/
def strTabSize (strings : List (List Nat)) : Nat :=
  (strings.map (fun s => s.length + 1)).sum

/-- `ElfBuilder::add_section` (src/builder.rs:479-490).  `none` models the
panicking asserts (32-bit range checks, then the name-bound check); on
success the section is appended and its index returned. -/
def ElfBuilder.add_section (b : ElfBuilder) (s : BSection) : Option (ElfBuilder × Nat) :=
  if b.is64bit = false ∧ ¬(s.vaddr < 2 ^ 32 ∧ s.entsize < 2 ^ 32 ∧ s.alignment < 2 ^ 32) then
    none
  else if s.name < strTabSize b.strings then
    some ({ b with sections := b.sections ++ [s] }, b.sections.length)
  else none

/-- The deduplicating scan of `ElfBuilder::add_string` (src/builder.rs:494-503):
whether the string was found, and the accumulated byte offset (`offset +=
s.len() + 1` per miss). -/
def addStringLoop : List (List Nat) → List Nat → Nat → Bool × Nat
  | [], _, off => (false, off)
  | s :: rest, x, off =>
      if s = x then (true, off) else addStringLoop rest x (off + (s.length + 1))

/-- `ElfBuilder::add_string` (src/builder.rs:493-510): dedup by exact match,
append when absent, return the byte offset. -/
def ElfBuilder.add_string (b : ElfBuilder) (x : List Nat) : ElfBuilder × Nat :=
  match addStringLoop b.strings x 0 with
  | (true, off) => (b, off)
  | (false, off) => ({ b with strings := b.strings ++ [x] }, off)

/-- `ElfBuilder::add_symbol` (src/builder.rs:518-541): interns the name, then
the 32-bit range assert on the value (`none` = panic), then appends. -/
def ElfBuilder.add_symbol (b : ElfBuilder) (name : List Nat) (value : Nat) (global : Bool)
    (kind : SymbolKind) (section_ : Nat) : Option (ElfBuilder × Nat) :=
  match b.add_string name with
  | (b1, nameIdx) =>
    if b.is64bit = false ∧ ¬(value < 2 ^ 32) then none
    else some ({ b1 with symbols := b1.symbols ++ [⟨nameIdx, value, global, kind, section_⟩] },
      b1.symbols.length)

/-- `ElfBuilder::set_entrypoint` (src/builder.rs:606-612). -/
def ElfBuilder.set_entrypoint (b : ElfBuilder) (entrypoint : Nat) : Option ElfBuilder :=
  if b.is64bit = false ∧ ¬(entrypoint < 2 ^ 32) then none
  else some { b with entrypoint }

/-- The scan of `ElfBuilder::find_string` (src/builder.rs:579-590). -/
def findStringLoop : List (List Nat) → List Nat → Nat → Option Nat
  | [], _, _ => none
  | s :: rest, x, off =>
      if s = x then some off else findStringLoop rest x (off + (s.length + 1))

/-- `ElfBuilder::find_string` (src/builder.rs:579-590). -/
def ElfBuilder.find_string (b : ElfBuilder) (x : List Nat) : Option Nat :=
  findStringLoop b.strings x 0

/-- `ElfBuilder::find_section` (src/builder.rs:544-550): position of the first
section whose name field equals the string's offset. -/
def ElfBuilder.find_section (b : ElfBuilder) (x : List Nat) : Option Nat :=
  (b.find_string x).bind fun nameIdx => b.sections.findIdx? (fun s => s.name == nameIdx)

/-- `ElfBuilder::add_relocation_table` (src/builder.rs:568-576). -/
def ElfBuilder.add_relocation_table (b : ElfBuilder) (name : List Nat) (section_ : Nat) :
    ElfBuilder :=
  match b.add_string name with
  | (b1, n) => { b1 with relocations := b1.relocations ++ [⟨n, section_, []⟩] }

/-- The `iter_mut().find(..)` push of `ElfBuilder::add_relocation`
(src/builder.rs:558-565); `none` models the unwrap panic when no table targets
the section. -/
def pushRelocation : List RelaTable → Nat → RelaEntry → Option (List RelaTable)
  | [], _, _ => none
  | t :: ts, sec, r =>
      if t.target_section = sec then
        some ({ t with relocations := t.relocations ++ [r] } :: ts)
      else (pushRelocation ts sec r).map (t :: ·)

/-- `ElfBuilder::add_relocation` (src/builder.rs:558-565). -/
def ElfBuilder.add_relocation (b : ElfBuilder) (section_ : Nat) (r : RelaEntry) :
    Option ElfBuilder :=
  (pushRelocation b.relocations section_ r).map fun rs => { b with relocations := rs }

/-- `ElfBuilder::segments` (src/builder.rs:614-618): the sections acting as
segments — every `Alloc`-flagged section of an `Executable` builder. -/
def ElfBuilder.segmentSections (b : ElfBuilder) : List BSection :=
  b.sections.filter (fun s => decide (b.kind = .executable) && s.flags.testBit 1)

/-- `self.segments().count()`. -/
def ElfBuilder.segCount (b : ElfBuilder) : Nat := b.segmentSections.length

/-- C5: For every builder constructed with the 32-bit class, any attempt to
set a section virtual address, alignment, or entry size, a symbol value, or
the entry point to a value above `2^32 - 1` is rejected. -/
theorem elf32_range_rejections (b : ElfBuilder) (h32 : b.is64bit = false) :
    (∀ s : BSection, 2 ^ 32 ≤ s.vaddr ∨ 2 ^ 32 ≤ s.entsize ∨ 2 ^ 32 ≤ s.alignment →
        b.add_section s = none)
    ∧ (∀ (name : List Nat) (value : Nat) (global : Bool) (kind : SymbolKind) (section_ : Nat),
        2 ^ 32 ≤ value → b.add_symbol name value global kind section_ = none)
    ∧ (∀ e : Nat, 2 ^ 32 ≤ e → b.set_entrypoint e = none) := by
  refine ⟨?_, ?_, ?_⟩
  · intro s hs
    rw [ElfBuilder.add_section, if_pos ⟨h32, by omega⟩]
  · intro name value global kind section_ hv
    rw [ElfBuilder.add_symbol]
    rcases b.add_string name with ⟨b1, nameIdx⟩
    exact if_pos ⟨h32, by omega⟩
  · intro e he
    rw [ElfBuilder.set_entrypoint, if_pos ⟨h32, by omega⟩]

/-- Witness for C5 at concrete out-of-range inputs on a fresh 32-bit builder. -/
theorem elf32_range_rejections_witness :
    (ElfBuilder.new .relocatable 243 false .little).add_section
      { data := [], name := 0, kind := .progbits, flags := 0, vaddr := 2 ^ 32,
        info := 0, entsize := 0, alignment := 0 } = none
    ∧ (ElfBuilder.new .relocatable 243 false .little).add_symbol [97] (2 ^ 32) false
        .noType 0 = none
    ∧ (ElfBuilder.new .relocatable 243 false .little).set_entrypoint (2 ^ 32) = none := by
  have h := elf32_range_rejections (ElfBuilder.new .relocatable 243 false .little) (by decide)
  exact ⟨h.1 _ (Or.inl (by decide)), h.2.1 [97] (2 ^ 32) false .noType 0 (by omega),
    h.2.2 (2 ^ 32) (by omega)⟩

/-- C10: `add_section` accepts exactly the sections whose name offset is
strictly below the current total string-table byte size (any smaller offset,
even one into the middle of a stored string, passes) and which satisfy the
32-bit range checks; under that precondition it appends the section and
returns its index, and it panics (`none`) otherwise. -/
theorem add_section_name_precondition (b : ElfBuilder) (s : BSection) :
    (b.add_section s = none ↔
      (b.is64bit = false ∧ ¬(s.vaddr < 2 ^ 32 ∧ s.entsize < 2 ^ 32 ∧ s.alignment < 2 ^ 32))
      ∨ strTabSize b.strings ≤ s.name)
    ∧ (s.name < strTabSize b.strings →
      (b.is64bit = true ∨ (s.vaddr < 2 ^ 32 ∧ s.entsize < 2 ^ 32 ∧ s.alignment < 2 ^ 32)) →
      b.add_section s = some ({ b with sections := b.sections ++ [s] }, b.sections.length)) := by
  constructor
  · constructor
    · intro hnone
      rw [ElfBuilder.add_section] at hnone
      by_cases h1 : b.is64bit = false ∧ ¬(s.vaddr < 2 ^ 32 ∧ s.entsize < 2 ^ 32
        ∧ s.alignment < 2 ^ 32)
      · exact Or.inl h1
      · rw [if_neg h1] at hnone
        by_cases h2 : s.name < strTabSize b.strings
        · rw [if_pos h2] at hnone
          exact absurd hnone (by simp)
        · exact Or.inr (Nat.not_lt.mp h2)
    · intro h
      rw [ElfBuilder.add_section]
      rcases h with h1 | h2
      · rw [if_pos h1]
      · by_cases h1 : b.is64bit = false ∧ ¬(s.vaddr < 2 ^ 32 ∧ s.entsize < 2 ^ 32
          ∧ s.alignment < 2 ^ 32)
        · rw [if_pos h1]
        · rw [if_neg h1, if_neg (Nat.not_lt.mpr h2)]
  · intro hname hrange
    rw [ElfBuilder.add_section]
    have h1 : ¬ (b.is64bit = false ∧ ¬(s.vaddr < 2 ^ 32 ∧ s.entsize < 2 ^ 32
        ∧ s.alignment < 2 ^ 32)) := by
      rcases hrange with h | h
      · intro hc
        rw [h] at hc
        exact absurd hc.1 (by decide)
      · intro hc
        exact hc.2 h
    rw [if_neg h1, if_pos hname]

/-- Witness for C10: a 64-bit builder with `""` and `"abc"` interned (total
string-table size 5); a name offset of 2 — the middle of `"abc"` — is
accepted and appended at index 1, while offset 5 panics. -/
theorem add_section_name_precondition_witness :
    (((ElfBuilder.new .relocatable 243 true .little).add_string [97, 98, 99]).1.add_section
      { data := [1], name := 2, kind := .progbits, flags := 0, vaddr := 0,
        info := 0, entsize := 0, alignment := 0 }).map (fun p => p.2) = some 1
    ∧ ((ElfBuilder.new .relocatable 243 true .little).add_string [97, 98, 99]).1.add_section
      { data := [1], name := 5, kind := .progbits, flags := 0, vaddr := 0,
        info := 0, entsize := 0, alignment := 0 } = none := by
  have h1 := (add_section_name_precondition
    ((ElfBuilder.new .relocatable 243 true .little).add_string [97, 98, 99]).1
    { data := [1], name := 2, kind := .progbits, flags := 0, vaddr := 0,
      info := 0, entsize := 0, alignment := 0 }).2 (by decide) (Or.inl (by decide))
  have h2 := (add_section_name_precondition
    ((ElfBuilder.new .relocatable 243 true .little).add_string [97, 98, 99]).1
    { data := [1], name := 5, kind := .progbits, flags := 0, vaddr := 0,
      info := 0, entsize := 0, alignment := 0 }).1.mpr (Or.inr (by decide))
  rw [h1]
  exact ⟨by decide, h2⟩

/-! ## The add-segment operation of the latest builder iteration

The repository's latest builder (the one exercised by `tests/builder.rs` and
serialized by `src/builder/elf32.rs` / `src/builder/elf64.rs`) stores an
explicit segment list, but the module defining its `Segment` type and
`add_segment` operation is not present under `src/` — only its callers,
serializers and tests are. -/

/-- Modelled from the spec: the deferred section identifier of §3 — "three
variants — a concrete section index, a placeholder referring to 'the symbol
table section', a placeholder referring to 'the string table section'".  The
defining module is absent from src/. -/
inductive SectionId where
  | concrete (index : Nat)
  | symbolTablePlaceholder
  | stringTablePlaceholder
deriving DecidableEq

/-- Modelled from the spec: the segment record of §3 ("type, file offset …
virtual address, physical address, file size, memory size, flags, alignment",
declared against a section identifier), matching the fields the tests pass to
`add_segment`.  The defining module is absent from src/. -/
structure Segment where
  section_ : SectionId
  kind : SegmentKind
  vaddr : Nat
  paddr : Nat
  filesz : Nat
  memsz : Nat
  flags : Nat
  align : Nat
deriving DecidableEq

/-- Build-side rejection reasons (spec §7: explicit error results). -/
inductive BuildError where
  | memszLessThanFilesz
  | reservedSegmentKind
deriving DecidableEq

/-- Modelled from the spec: `add_segment` (§4.4) — "appends a program-header
entry; rejects if memory size < file size, or if the declared type is the
reserved 'program header table' type".  The function itself is absent from
src/ (only its tests and the serializers that consume the segment list
remain); rejections are surfaced as error results per §7. -/
def add_segment (segments : List Segment) (s : Segment) : Except BuildError (List Segment) :=
  if s.memsz < s.filesz then .error .memszLessThanFilesz
  else if s.kind = .phdr then .error .reservedSegmentKind
  else .ok (segments ++ [s])

/-- C1: For every segment passed to the builder's add-segment operation, if
the segment's memory size is strictly less than its file size, the operation
rejects the segment with an error and does not append it to the builder's
segment list (no updated list is produced). -/
theorem add_segment_rejects_memsz (segments : List Segment) (s : Segment)
    (h : s.memsz < s.filesz) :
    add_segment segments s = .error .memszLessThanFilesz
    ∧ ∀ l : List Segment, add_segment segments s ≠ .ok l := by
  have he : add_segment segments s = .error .memszLessThanFilesz := by
    rw [add_segment, if_pos h]
  exact ⟨he, fun l hl => by rw [he] at hl; exact Except.noConfusion hl⟩

/-- Witness for C1: a concrete segment with `memsz = 7 < filesz = 8` is
rejected and never appended. -/
theorem add_segment_rejects_memsz_witness :
    add_segment [] { section_ := .concrete 1, kind := .load, vaddr := 0, paddr := 0,
                     filesz := 8, memsz := 7, flags := 0, align := 0 }
      = .error .memszLessThanFilesz := by
  exact (add_segment_rejects_memsz [] _ (by decide)).1

/-! ## String interning (C6) -/

/-- The string-table serialization loop of `build` (src/builder.rs:169-174):
every interned string in order, each followed by a null byte. -/
def stringTableBytes (strings : List (List Nat)) : List Nat :=
  (strings.map (fun s => s ++ [0])).flatten

theorem strTabSize_nil : strTabSize [] = 0 := rfl

theorem strTabSize_cons (s : List Nat) (l : List (List Nat)) :
    strTabSize (s :: l) = (s.length + 1) + strTabSize l := by
  simp [strTabSize]

theorem stringTableBytes_length (l : List (List Nat)) :
    (stringTableBytes l).length = strTabSize l := by
  induction l with
  | nil => rfl
  | cons s rest ih =>
      simp [stringTableBytes, strTabSize] at ih ⊢
      omega

theorem findStringLoop_none_iff (l : List (List Nat)) (x : List Nat) (off : Nat) :
    findStringLoop l x off = none ↔ x ∉ l := by
  induction l generalizing off with
  | nil => simp [findStringLoop]
  | cons s rest ih =>
      by_cases hs : s = x
      · simp [findStringLoop, hs]
      · simp [findStringLoop, hs, ih, Ne.symm hs]

theorem addStringLoop_found (l : List (List Nat)) (x : List Nat) (off o : Nat)
    (h : findStringLoop l x off = some o) : addStringLoop l x off = (true, o) := by
  induction l generalizing off with
  | nil => simp [findStringLoop] at h
  | cons s rest ih =>
      by_cases hs : s = x
      · simp [findStringLoop, hs] at h
        simp [addStringLoop, hs, h]
      · simp [findStringLoop, hs] at h
        simp [addStringLoop, hs, ih _ h]

theorem addStringLoop_not_found (l : List (List Nat)) (x : List Nat) (off : Nat)
    (h : findStringLoop l x off = none) :
    addStringLoop l x off = (false, off + strTabSize l) := by
  induction l generalizing off with
  | nil => simp [addStringLoop, strTabSize]
  | cons s rest ih =>
      by_cases hs : s = x
      · simp [findStringLoop, hs] at h
      · simp [findStringLoop, hs] at h
        rw [addStringLoop, if_neg hs, ih _ h, strTabSize_cons]
        congr 1
        omega

theorem findStringLoop_append_some (l m : List (List Nat)) (x : List Nat) (off o : Nat)
    (h : findStringLoop l x off = some o) : findStringLoop (l ++ m) x off = some o := by
  induction l generalizing off with
  | nil => simp [findStringLoop] at h
  | cons s rest ih =>
      by_cases hs : s = x
      · simp [findStringLoop, hs] at h ⊢
        exact h
      · simp [findStringLoop, hs] at h ⊢
        exact ih _ h

theorem findStringLoop_append_none (l m : List (List Nat)) (x : List Nat) (off : Nat)
    (h : findStringLoop l x off = none) :
    findStringLoop (l ++ m) x off = findStringLoop m x (off + strTabSize l) := by
  induction l generalizing off with
  | nil => simp [findStringLoop, strTabSize]
  | cons s rest ih =>
      by_cases hs : s = x
      · simp [findStringLoop, hs] at h
      · simp [findStringLoop, hs] at h
        rw [List.cons_append, findStringLoop, if_neg hs, ih _ h, strTabSize_cons]
        congr 1
        omega

theorem add_string_found {b : ElfBuilder} {x : List Nat} {o : Nat}
    (h : b.find_string x = some o) : b.add_string x = (b, o) := by
  rw [ElfBuilder.add_string, addStringLoop_found _ _ _ _ h]

theorem add_string_new {b : ElfBuilder} {x : List Nat}
    (h : b.find_string x = none) :
    b.add_string x = ({ b with strings := b.strings ++ [x] }, strTabSize b.strings) := by
  rw [ElfBuilder.add_string, addStringLoop_not_found _ _ _ h]
  simp

theorem find_after_add (b : ElfBuilder) (x : List Nat) :
    ((b.add_string x).1).find_string x = some (b.add_string x).2 := by
  rcases h : b.find_string x with - | o
  · rw [add_string_new h]
    show findStringLoop (b.strings ++ [x]) x 0 = _
    rw [findStringLoop_append_none _ _ _ _ h]
    simp [findStringLoop]
  · rw [add_string_found h]
    exact h

theorem find_string_mono (b : ElfBuilder) (y x : List Nat) (o : Nat)
    (h : b.find_string x = some o) : ((b.add_string y).1).find_string x = some o := by
  rcases hy : b.find_string y with - | oy
  · rw [add_string_new hy]
    exact findStringLoop_append_some _ _ _ _ _ h
  · rw [add_string_found hy]
    exact h

/-- A sequence of interning calls: repeated `add_string`, keeping the builder. -/
def internAll (b : ElfBuilder) (ts : List (List Nat)) : ElfBuilder :=
  ts.foldl (fun b t => (b.add_string t).1) b

theorem internAll_find (b : ElfBuilder) (ts : List (List Nat)) (x : List Nat) (o : Nat)
    (h : b.find_string x = some o) : (internAll b ts).find_string x = some o := by
  induction ts generalizing b with
  | nil => exact h
  | cons t rest ih => exact ih _ (find_string_mono b t x o h)

theorem find_string_offset_bytes (l : List (List Nat)) (x : List Nat) (off o : Nat)
    (h : findStringLoop l x off = some o) :
    ((stringTableBytes l).drop (o - off)).take (x.length + 1) = x ++ [0] ∧ off ≤ o := by
  induction l generalizing off with
  | nil => simp [findStringLoop] at h
  | cons s rest ih =>
      by_cases hs : s = x
      · simp [findStringLoop, hs] at h
        subst h
        subst hs
        refine ⟨?_, Nat.le_refl _⟩
        rw [Nat.sub_self]
        show ((((s ++ [0]) :: _).flatten).drop 0).take (s.length + 1) = s ++ [0]
        rw [List.flatten_cons, List.drop_zero]
        have hl : s.length + 1 = (s ++ [0]).length := by simp
        rw [hl, List.take_left]
      · simp only [findStringLoop, if_neg hs] at h
        obtain ⟨ht, hle⟩ := ih _ h
        constructor
        · have he : o - off = (s ++ [0]).length + (o - (off + (s.length + 1))) := by
            simp only [List.length_append, List.length_singleton]
            omega
          show ((((s ++ [0]) :: _).flatten).drop (o - off)).take (x.length + 1) = x ++ [0]
          rw [List.flatten_cons, he, List.drop_append]
          exact ht
        · omega

theorem add_string_nodup (b : ElfBuilder) (x : List Nat) (h : b.strings.Nodup) :
    ((b.add_string x).1).strings.Nodup := by
  rcases hx : b.find_string x with - | o
  · rw [add_string_new hx]
    have hnotin : x ∉ b.strings := (findStringLoop_none_iff _ _ _).mp hx
    simp [List.nodup_append, h, hnotin]
  · rw [add_string_found hx]
    exact h

theorem internAll_nodup (b : ElfBuilder) (ts : List (List Nat)) (h : b.strings.Nodup) :
    (internAll b ts).strings.Nodup := by
  induction ts generalizing b with
  | nil => exact h
  | cons t rest ih => exact ih _ (add_string_nodup b t h)

/-- C6: For every sequence of intern-string calls, interning a string that is
already present returns the same identifier as its first insertion; every
identifier equals the byte offset the string occupies in the final
concatenated string-table bytes (the bytes at that offset are the string
followed by its null terminator); and the final string-table byte size equals
exactly the sum of `(byte length + 1)` over the distinct interned strings,
concatenated null-terminated in first-insertion order (the string list stays
duplicate-free). -/
theorem intern_string_spec (b : ElfBuilder) (x : List Nat) (ts : List (List Nat))
    (b1 : ElfBuilder) (o1 : Nat) (h : b.add_string x = (b1, o1)) :
    ((internAll b1 ts).add_string x).2 = o1
    ∧ (internAll b1 ts).find_string x = some o1
    ∧ ((stringTableBytes (internAll b1 ts).strings).drop o1).take (x.length + 1) = x ++ [0]
    ∧ (stringTableBytes (internAll b1 ts).strings).length
        = strTabSize (internAll b1 ts).strings
    ∧ (b.strings.Nodup → (internAll b1 ts).strings.Nodup) := by
  have hfind : b1.find_string x = some o1 := by
    have := find_after_add b x
    rw [h] at this
    exact this
  have hfind2 : (internAll b1 ts).find_string x = some o1 := internAll_find _ _ _ _ hfind
  refine ⟨?_, hfind2, ?_, stringTableBytes_length _, ?_⟩
  · rw [add_string_found hfind2]
  · have := (find_string_offset_bytes (internAll b1 ts).strings x 0 o1 hfind2).1
    simpa using this
  · intro hnd
    have hb1 : b1.strings.Nodup := by
      have := add_string_nodup b x hnd
      rw [h] at this
      exact this
    exact internAll_nodup _ _ hb1

/-- Witness for C6: on a fresh builder, intern `"ab"` (identifier 1, right
after the reserved empty string), then `"c"` and `"ab"` again; re-interning
returns 1, the final table bytes at offset 1 are `"ab\0"`, sizes agree, and
the string list stays duplicate-free. -/
theorem intern_string_spec_witness :
    ((internAll ((ElfBuilder.new .relocatable 243 true .little).add_string [97, 98]).1
        [[99], [97, 98]]).add_string [97, 98]).2 = 1
    ∧ ((stringTableBytes (internAll
        ((ElfBuilder.new .relocatable 243 true .little).add_string [97, 98]).1
        [[99], [97, 98]]).strings).drop 1).take 3 = [97, 98, 0]
    ∧ (internAll ((ElfBuilder.new .relocatable 243 true .little).add_string [97, 98]).1
        [[99], [97, 98]]).strings.Nodup := by
  have h := intern_string_spec (ElfBuilder.new .relocatable 243 true .little) [97, 98]
    [[99], [97, 98]]
    ((ElfBuilder.new .relocatable 243 true .little).add_string [97, 98]).1
    ((ElfBuilder.new .relocatable 243 true .little).add_string [97, 98]).2 rfl
  have e : ((ElfBuilder.new .relocatable 243 true .little).add_string [97, 98]).2 = 1 := by
    decide
  rw [e] at h
  exact ⟨h.1, h.2.2.1, h.2.2.2.2 (by decide)⟩

/-! ## The section-building phase of `ElfBuilder::build` (src/builder.rs:83-199) -/

/-- The UTF-8 bytes of `".symtab"`. -/
def nameSymtab : List Nat := [0x2e, 0x73, 0x79, 0x6d, 0x74, 0x61, 0x62]

/-- The UTF-8 bytes of `".strtab"`. -/
def nameStrtab : List Nat := [0x2e, 0x73, 0x74, 0x72, 0x74, 0x61, 0x62]

/-- One 64-bit symbol record of `build` (src/builder.rs:90-100): name (u32,
checked), info byte `kind | (global ? 16 : 0)`, `other` 0, section index
(u16), value (u64), size always written as 0.  `none` models the
`try_into().unwrap()` panic. -/
def symbolEntry64 (e : Endianness) (sym : Symbol) : Option (List Nat) :=
  if sym.name < 2 ^ 32 then
    some (u32Bytes e sym.name
      ++ [Nat.lor sym.kind.toU8 (if sym.global then 16 else 0), 0]
      ++ u16Bytes e sym.section_
      ++ u64Bytes e sym.value
      ++ [0, 0, 0, 0, 0, 0, 0, 0])
  else none

/-- One 32-bit symbol record of `build` (src/builder.rs:102-114): name (u32),
value (u32, checked), size 0, info byte, `other` 0, section index (u16). -/
def symbolEntry32 (e : Endianness) (sym : Symbol) : Option (List Nat) :=
  if sym.name < 2 ^ 32 ∧ sym.value < 2 ^ 32 then
    some (u32Bytes e sym.name ++ u32Bytes e sym.value ++ [0, 0, 0, 0]
      ++ [Nat.lor sym.kind.toU8 (if sym.global then 16 else 0), 0]
      ++ u16Bytes e sym.section_)
  else none

/-- The symbol-table serialization loop of `build` (src/builder.rs:87-115). -/
def symbolTableBytes (is64 : Bool) (e : Endianness) : List Symbol → Option (List Nat)
  | [] => some []
  | sym :: rest => do
      let entry ← if is64 then symbolEntry64 e sym else symbolEntry32 e sym
      let tail ← symbolTableBytes is64 e rest
      pure (entry ++ tail)

/-- One record of the 32-bit relocation loop of `build`
(src/builder.rs:135-142): offset, info and addend each truncated `as u32`. -/
def relaEntry32 (e : Endianness) (r : RelaEntry) : List Nat :=
  u32Bytes e (r.offset % 2 ^ 32) ++ u32Bytes e (r.info % 2 ^ 32)
    ++ u32Bytes e (r.addend % 2 ^ 32)

/-- The relocation-table bytes of one table (src/builder.rs:133-142). -/
def relaTableBytes (e : Endianness) (rs : List RelaEntry) : List Nat :=
  (rs.map (relaEntry32 e)).flatten

/-- The section record pushed for one relocation table in the 32-bit branch of
`build` (src/builder.rs:154-163). -/
def relaRecord (b : ElfBuilder) (t : RelaTable) : BSection :=
  { name := t.name, data := relaTableBytes b.endianness t.relocations, kind := .rela,
    flags := 0, vaddr := 0, entsize := if b.is64bit then 24 else 12, alignment := 0,
    info := t.target_section }

/-- The same record behind the `index.try_into().unwrap()` guard
(src/builder.rs:162); `none` models the panic. -/
def relaSectionOf (b : ElfBuilder) (t : RelaTable) : Option BSection :=
  if t.target_section < 2 ^ 32 then some (relaRecord b t) else none

/-- The first relocation loop of `build` (src/builder.rs:130-149): collect one
section record per accumulated relocation table. -/
def mapRelaSections (b : ElfBuilder) : List RelaTable → Option (List BSection)
  | [] => some []
  | t :: ts => do
      let s ← relaSectionOf b t
      let rest ← mapRelaSections b ts
      pure (s :: rest)

/-- The `for_each(add_section(..))` loop of `build` (src/builder.rs:151-164). -/
def addRelaSections (b : ElfBuilder) : List BSection → Option ElfBuilder
  | [] => some b
  | s :: rest => do
      let (b1, _) ← b.add_section s
      addRelaSections b1 rest

/-- The state-mutating phase of `ElfBuilder::build` (src/builder.rs:83-185):
serialize the symbol table and append it as `.symtab`; in the 32-bit case
serialize and append each relocation table; intern `.strtab`, freeze the
string-table bytes and append them as the last section.  `none` models any
panicking `unwrap`/`assert`. -/
def buildFinalSections (b : ElfBuilder) : Option ElfBuilder := do
  let st ← symbolTableBytes b.is64bit b.endianness b.symbols
  let p1 := b.add_string nameSymtab
  let b1 := p1.1
  let info ← if b1.symbols.length < 2 ^ 32 then some b1.symbols.length else none
  let (b2, _) ← b1.add_section
    { name := p1.2, data := st, kind := .symbolTable, flags := 0, vaddr := 0,
      entsize := if b1.is64bit then 24 else 16, alignment := 0, info := info }
  let b3 ← if b2.is64bit then pure b2 else do
    let secs ← mapRelaSections b2 b2.relocations
    addRelaSections b2 secs
  let b4 := (b3.add_string nameStrtab).1
  let nameIdx ← b4.find_string nameStrtab
  let (b5, _) ← b4.add_section
    { name := nameIdx, data := stringTableBytes b4.strings, kind := .stringTable,
      flags := 0, vaddr := 0, info := 0, entsize := 0, alignment := 0 }
  pure b5

/-- Counterexample to C2 as stated: a fresh 64-bit builder whose symbol list
is exactly the reserved first (undefined) entry and on which the symbol table
was never requested (the old builder has no request mechanism at all) still
gets a symbol-table section appended by `build`'s section phase. -/
theorem build_symtab_counterexample :
    (ElfBuilder.new .relocatable 243 true .little).symbols.length = 1
    ∧ (buildFinalSections (ElfBuilder.new .relocatable 243 true .little)).map
        (fun b => (b.sections.filter
          (fun s => decide (s.kind = SectionKind.symbolTable))).length) = some 1 := by
  decide

/-- Counterexample to C3 as stated: a 64-bit builder holding one accumulated
relocation table with one entry emits no relocation section at all — the
serialization loop is gated on the 32-bit class (src/builder.rs:129). -/
theorem build_rela64_counterexample :
    ((ElfBuilder.new .relocatable 243 true .little).add_relocation_table
        [0x2e, 0x72] 1).relocations.length = 1
    ∧ (((ElfBuilder.new .relocatable 243 true .little).add_relocation_table
        [0x2e, 0x72] 1).add_relocation 1 ⟨4, 100, 3⟩).map (fun b =>
          (b.relocations.map (fun t => t.relocations.length)).sum) = some 1
    ∧ (((ElfBuilder.new .relocatable 243 true .little).add_relocation_table
        [0x2e, 0x72] 1).add_relocation 1 ⟨4, 100, 3⟩).bind (fun b =>
        (buildFinalSections b).map (fun b' => (b'.sections.filter
          (fun s => decide (s.kind = SectionKind.rela))).length)) = some 0 := by
  decide

/-! ## Helper lemmas about the build phase -/

theorem add_section_ok {b : ElfBuilder} {s : BSection}
    (hname : s.name < strTabSize b.strings)
    (hr : b.is64bit = true ∨ (s.vaddr < 2 ^ 32 ∧ s.entsize < 2 ^ 32 ∧ s.alignment < 2 ^ 32)) :
    b.add_section s = some ({ b with sections := b.sections ++ [s] }, b.sections.length) := by
  rw [ElfBuilder.add_section]
  have h1 : ¬ (b.is64bit = false ∧ ¬(s.vaddr < 2 ^ 32 ∧ s.entsize < 2 ^ 32
      ∧ s.alignment < 2 ^ 32)) := by
    rcases hr with h | h
    · intro hc
      rw [h] at hc
      exact absurd hc.1 (by decide)
    · intro hc
      exact hc.2 h
  rw [if_neg h1, if_pos hname]

theorem findStringLoop_lt (l : List (List Nat)) (x : List Nat) (off o : Nat)
    (h : findStringLoop l x off = some o) : o < off + strTabSize l := by
  induction l generalizing off with
  | nil => simp [findStringLoop] at h
  | cons s rest ih =>
      by_cases hs : s = x
      · simp [findStringLoop, hs] at h
        rw [strTabSize_cons]
        omega
      · simp only [findStringLoop, if_neg hs] at h
        have := ih _ h
        rw [strTabSize_cons]
        omega

theorem strTabSize_append (l m : List (List Nat)) :
    strTabSize (l ++ m) = strTabSize l + strTabSize m := by
  simp [strTabSize]

theorem mapRelaSections_eq (b : ElfBuilder) (ts : List RelaTable)
    (h : ∀ t ∈ ts, t.target_section < 2 ^ 32) :
    mapRelaSections b ts = some (ts.map (relaRecord b)) := by
  induction ts with
  | nil => rfl
  | cons t rest ih =>
      have ht := h t (by simp)
      have hrest := ih (fun t' ht' => h t' (List.mem_cons_of_mem _ ht'))
      rw [mapRelaSections]
      rw [relaSectionOf, if_pos ht]
      rw [hrest]
      rfl

theorem addRelaSections_eq (secs : List BSection) (b : ElfBuilder)
    (h : ∀ s ∈ secs, s.name < strTabSize b.strings
      ∧ (b.is64bit = true ∨ (s.vaddr < 2 ^ 32 ∧ s.entsize < 2 ^ 32 ∧ s.alignment < 2 ^ 32))) :
    addRelaSections b secs = some { b with sections := b.sections ++ secs } := by
  induction secs generalizing b with
  | nil =>
      show some b = _
      simp
  | cons s rest ih =>
      rw [addRelaSections]
      rw [add_section_ok (h s (by simp)).1 (h s (by simp)).2]
      show addRelaSections { b with sections := b.sections ++ [s] } rest = _
      rw [ih { b with sections := b.sections ++ [s] }
        (fun s' hs' => (h s' (List.mem_cons_of_mem _ hs')))]
      simp

/-- The exact builder state produced by `build`'s section phase
(src/builder.rs:83-185) when the two fixed names are not yet interned: the
symbol-table section is appended first (at index `sections.length`), then —
only for 32-bit builders — one `Rela` section per accumulated relocation
table, then the string-table section last. -/
theorem buildFinalSections_eq (b : ElfBuilder) (st : List Nat)
    (hst : symbolTableBytes b.is64bit b.endianness b.symbols = some st)
    (hsl : b.symbols.length < 2 ^ 32)
    (hrel : ∀ t ∈ b.relocations, t.name < strTabSize b.strings ∧ t.target_section < 2 ^ 32)
    (hns : nameSymtab ∉ b.strings) (hnt : nameStrtab ∉ b.strings) :
    buildFinalSections b = some
      { b with
        strings := b.strings ++ [nameSymtab, nameStrtab],
        sections := b.sections
          ++ ({ name := strTabSize b.strings, data := st, kind := .symbolTable,
                flags := 0, vaddr := 0, entsize := if b.is64bit then 24 else 16,
                alignment := 0, info := b.symbols.length } : BSection)
          :: ((if b.is64bit then [] else b.relocations.map (relaRecord b))
              ++ [{ name := strTabSize b.strings + 8,
                    data := stringTableBytes (b.strings ++ [nameSymtab, nameStrtab]),
                    kind := .stringTable, flags := 0, vaddr := 0, info := 0,
                    entsize := 0, alignment := 0 }]) } := by
  have hfind1 : b.find_string nameSymtab = none := (findStringLoop_none_iff _ _ _).mpr hns
  have e1 := add_string_new hfind1
  have hS8 : strTabSize (b.strings ++ [nameSymtab]) = strTabSize b.strings + 8 := by
    rw [strTabSize_append]
    rfl
  have hS16 : strTabSize ((b.strings ++ [nameSymtab]) ++ [nameStrtab])
      = strTabSize b.strings + 16 := by
    rw [strTabSize_append, strTabSize_append]
    rfl
  have hnotin2 : nameStrtab ∉ b.strings ++ [nameSymtab] := by
    intro hmem
    rcases List.mem_append.mp hmem with h | h
    · exact hnt h
    · simp at h
      exact absurd h (by decide)
  have hfind4 : findStringLoop ((b.strings ++ [nameSymtab]) ++ [nameStrtab]) nameStrtab 0
      = some (strTabSize b.strings + 8) := by
    rw [findStringLoop_append_none _ _ _ _ ((findStringLoop_none_iff _ _ _).mpr hnotin2)]
    rw [findStringLoop, if_pos rfl, Nat.zero_add, hS8]
  rw [buildFinalSections, hst]
  cases hb : b.is64bit with
  | true =>
      have esec1 := add_section_ok (b := (⟨b.sections, b.strings ++ [nameSymtab], b.symbols, b.relocations, b.entrypoint, b.kind, b.machine, b.endianness, true⟩ : ElfBuilder)) (s := (⟨st, strTabSize b.strings, .symbolTable, 0, 0, b.symbols.length, 24, 0⟩ : BSection))
        (by show strTabSize b.strings < strTabSize (b.strings ++ [nameSymtab]); omega)
        (Or.inl rfl)
      have e2 := add_string_new (b := (⟨b.sections ++ [(⟨st, strTabSize b.strings, .symbolTable, 0, 0, b.symbols.length, 24, 0⟩ : BSection)], b.strings ++ [nameSymtab], b.symbols, b.relocations, b.entrypoint, b.kind, b.machine, b.endianness, true⟩ : ElfBuilder)) (x := nameStrtab)
        ((findStringLoop_none_iff _ _ _).mpr hnotin2)
      have esec2 := add_section_ok (b := (⟨b.sections ++ [(⟨st, strTabSize b.strings, .symbolTable, 0, 0, b.symbols.length, 24, 0⟩ : BSection)], (b.strings ++ [nameSymtab]) ++ [nameStrtab], b.symbols, b.relocations, b.entrypoint, b.kind, b.machine, b.endianness, true⟩ : ElfBuilder)) (s := (⟨stringTableBytes ((b.strings ++ [nameSymtab]) ++ [nameStrtab]), strTabSize b.strings + 8, .stringTable, 0, 0, 0, 0, 0⟩ : BSection))
        (by show strTabSize b.strings + 8
              < strTabSize ((b.strings ++ [nameSymtab]) ++ [nameStrtab])
            omega)
        (Or.inl rfl)
      simp only [Bind.bind, Option.bind, Pure.pure, e1, hsl, if_true, hb,
        esec1, e2, ElfBuilder.find_string, hfind4, esec2]
      simp [List.append_assoc, hS8]
  | false =>
      have esec1 := add_section_ok (b := (⟨b.sections, b.strings ++ [nameSymtab], b.symbols, b.relocations, b.entrypoint, b.kind, b.machine, b.endianness, false⟩ : ElfBuilder)) (s := (⟨st, strTabSize b.strings, .symbolTable, 0, 0, b.symbols.length, 16, 0⟩ : BSection))
        (by show strTabSize b.strings < strTabSize (b.strings ++ [nameSymtab]); omega)
        (Or.inr (by norm_num))
      have emap := mapRelaSections_eq (⟨b.sections ++ [(⟨st, strTabSize b.strings, .symbolTable, 0, 0, b.symbols.length, 16, 0⟩ : BSection)], b.strings ++ [nameSymtab], b.symbols, b.relocations, b.entrypoint, b.kind, b.machine, b.endianness, false⟩ : ElfBuilder) b.relocations (fun t ht => (hrel t ht).2)
      have eadd := addRelaSections_eq (b.relocations.map (relaRecord (⟨b.sections ++ [(⟨st, strTabSize b.strings, .symbolTable, 0, 0, b.symbols.length, 16, 0⟩ : BSection)], b.strings ++ [nameSymtab], b.symbols, b.relocations, b.entrypoint, b.kind, b.machine, b.endianness, false⟩ : ElfBuilder))) (⟨b.sections ++ [(⟨st, strTabSize b.strings, .symbolTable, 0, 0, b.symbols.length, 16, 0⟩ : BSection)], b.strings ++ [nameSymtab], b.symbols, b.relocations, b.entrypoint, b.kind, b.machine, b.endianness, false⟩ : ElfBuilder)
        (by
          intro s hs
          rcases List.mem_map.mp hs with ⟨t, ht, rfl⟩
          refine ⟨?_, Or.inr ⟨?_, ?_, ?_⟩⟩
          · show t.name < strTabSize (b.strings ++ [nameSymtab])
            have := (hrel t ht).1
            omega
          · simp [relaRecord]
          · simp [relaRecord]
          · simp [relaRecord])
      have e2 := add_string_new (b := (⟨(b.sections ++ [(⟨st, strTabSize b.strings, .symbolTable, 0, 0, b.symbols.length, 16, 0⟩ : BSection)]) ++ (b.relocations.map (relaRecord (⟨b.sections ++ [(⟨st, strTabSize b.strings, .symbolTable, 0, 0, b.symbols.length, 16, 0⟩ : BSection)], b.strings ++ [nameSymtab], b.symbols, b.relocations, b.entrypoint, b.kind, b.machine, b.endianness, false⟩ : ElfBuilder))), b.strings ++ [nameSymtab], b.symbols, b.relocations, b.entrypoint, b.kind, b.machine, b.endianness, false⟩ : ElfBuilder)) (x := nameStrtab)
        ((findStringLoop_none_iff _ _ _).mpr hnotin2)
      have esec2 := add_section_ok (b := (⟨(b.sections ++ [(⟨st, strTabSize b.strings, .symbolTable, 0, 0, b.symbols.length, 16, 0⟩ : BSection)]) ++ (b.relocations.map (relaRecord (⟨b.sections ++ [(⟨st, strTabSize b.strings, .symbolTable, 0, 0, b.symbols.length, 16, 0⟩ : BSection)], b.strings ++ [nameSymtab], b.symbols, b.relocations, b.entrypoint, b.kind, b.machine, b.endianness, false⟩ : ElfBuilder))), (b.strings ++ [nameSymtab]) ++ [nameStrtab], b.symbols, b.relocations, b.entrypoint, b.kind, b.machine, b.endianness, false⟩ : ElfBuilder)) (s := (⟨stringTableBytes ((b.strings ++ [nameSymtab]) ++ [nameStrtab]), strTabSize b.strings + 8, .stringTable, 0, 0, 0, 0, 0⟩ : BSection))
        (by show strTabSize b.strings + 8
              < strTabSize ((b.strings ++ [nameSymtab]) ++ [nameStrtab])
            omega)
        (Or.inr (by norm_num))
      simp only [Bind.bind, Option.bind, Pure.pure, e1, hsl, if_true, hb,
        Bool.false_eq_true, if_false,
        esec1, emap, eadd, e2, ElfBuilder.find_string, hfind4, esec2]
      simp [List.append_assoc, hS8, relaRecord, hb]

/-- C2 (amended): when the builder's consuming build operation runs, the
serialized symbol table is always appended as a section, at index
`sections.length`, regardless of whether any symbol beyond the reserved first
entry was accumulated (and there is no request mechanism); there is no
emptiness condition. -/
theorem build_symtab_always (b : ElfBuilder) (st : List Nat)
    (hst : symbolTableBytes b.is64bit b.endianness b.symbols = some st)
    (hsl : b.symbols.length < 2 ^ 32)
    (hrel : ∀ t ∈ b.relocations, t.name < strTabSize b.strings ∧ t.target_section < 2 ^ 32)
    (hns : nameSymtab ∉ b.strings) (hnt : nameStrtab ∉ b.strings) :
    ∃ b', buildFinalSections b = some b'
      ∧ b'.sections[b.sections.length]? = some
          { name := strTabSize b.strings, data := st, kind := .symbolTable, flags := 0,
            vaddr := 0, entsize := if b.is64bit then 24 else 16, alignment := 0,
            info := b.symbols.length } := by
  refine ⟨_, buildFinalSections_eq b st hst hsl hrel hns hnt, ?_⟩
  show (b.sections ++ _ :: _)[b.sections.length]? = _
  rw [List.getElem?_append_right (Nat.le_refl _)]
  simp

/-- Witness for C2's amended theorem: on a fresh 64-bit builder (whose symbol
list is just the reserved entry) the serialized 24-zero-byte symbol table is
still appended, at index 1. -/
theorem build_symtab_always_witness :
    ∃ b', buildFinalSections (ElfBuilder.new .relocatable 243 true .little) = some b'
      ∧ b'.sections[(ElfBuilder.new .relocatable 243 true .little).sections.length]? = some
          { name := strTabSize (ElfBuilder.new .relocatable 243 true .little).strings,
            data := [0, 0, 0, 0, 0, 0, 0, 0, 0, 0, 0, 0, 0, 0, 0, 0, 0, 0, 0, 0, 0, 0, 0, 0],
            kind := .symbolTable, flags := 0, vaddr := 0,
            entsize := if (ElfBuilder.new .relocatable 243 true .little).is64bit then 24
              else 16,
            alignment := 0,
            info := (ElfBuilder.new .relocatable 243 true .little).symbols.length } :=
  build_symtab_always (ElfBuilder.new .relocatable 243 true .little)
    [0, 0, 0, 0, 0, 0, 0, 0, 0, 0, 0, 0, 0, 0, 0, 0, 0, 0, 0, 0, 0, 0, 0, 0]
    (by decide) (by decide) (by decide) (by decide) (by decide)

/-- C3 (amended): only for 32-bit builders does build serialize the
accumulated relocation tables: one section per table, appended directly after
the symbol-table section, holding the 12-byte Rela records (offset, combined
info, addend, each truncated to 32 bits), with the section's info field the
target section's index; the `.symtab` lookup used for such a section's link
field resolves to the symbol-table section's index.  For a 64-bit builder the
accumulated relocation tables are not serialized at all: only the symbol
table and string table are appended. -/
theorem build_rela_sections (b : ElfBuilder) (st : List Nat)
    (hst : symbolTableBytes b.is64bit b.endianness b.symbols = some st)
    (hsl : b.symbols.length < 2 ^ 32)
    (hrel : ∀ t ∈ b.relocations, t.name < strTabSize b.strings ∧ t.target_section < 2 ^ 32)
    (hns : nameSymtab ∉ b.strings) (hnt : nameStrtab ∉ b.strings)
    (hsec : ∀ s ∈ b.sections, s.name < strTabSize b.strings) :
    ∃ b', buildFinalSections b = some b'
      ∧ (b.is64bit = false → ∀ i (hi : i < b.relocations.length),
          b'.sections[b.sections.length + 1 + i]? = some
            { name := b.relocations[i].name,
              data := relaTableBytes b.endianness b.relocations[i].relocations,
              kind := .rela, flags := 0, vaddr := 0, entsize := 12, alignment := 0,
              info := b.relocations[i].target_section })
      ∧ b'.find_section nameSymtab = some b.sections.length
      ∧ (b'.sections[b.sections.length]?.map (fun s => s.kind)
          = some SectionKind.symbolTable)
      ∧ (b.is64bit = true →
          b'.sections = b.sections
            ++ [{ name := strTabSize b.strings, data := st, kind := .symbolTable,
                  flags := 0, vaddr := 0, entsize := 24, alignment := 0,
                  info := b.symbols.length },
                { name := strTabSize b.strings + 8,
                  data := stringTableBytes (b.strings ++ [nameSymtab, nameStrtab]),
                  kind := .stringTable, flags := 0, vaddr := 0, info := 0,
                  entsize := 0, alignment := 0 }]) := by
  refine ⟨_, buildFinalSections_eq b st hst hsl hrel hns hnt, ?_, ?_, ?_, ?_⟩
  · intro hb i hi
    show (b.sections ++ _ :: ((if b.is64bit = true then _ else _) ++ _))[_]? = _
    rw [hb]
    simp only [Bool.false_eq_true, if_false]
    rw [List.getElem?_append_right (by omega)]
    have harith : b.sections.length + 1 + i - b.sections.length = i + 1 := by omega
    rw [harith]
    rw [List.getElem?_cons_succ]
    rw [List.getElem?_append, if_pos (by simpa using hi)]
    rw [List.getElem?_map]
    rw [List.getElem?_eq_getElem hi]
    simp [relaRecord, hb]
  · show (ElfBuilder.find_section _ _) = _
    rw [ElfBuilder.find_section]
    have hfs : findStringLoop (b.strings ++ [nameSymtab, nameStrtab]) nameSymtab 0
        = some (strTabSize b.strings) := by
      rw [findStringLoop_append_none _ _ _ _ ((findStringLoop_none_iff _ _ _).mpr hns)]
      rw [findStringLoop, if_pos rfl, Nat.zero_add]
    show (findStringLoop (b.strings ++ [nameSymtab, nameStrtab]) nameSymtab 0).bind _ = _
    rw [hfs]
    show List.findIdx? _ (b.sections ++ _ :: _) = _
    rw [List.findIdx?_append]
    have h1 : List.findIdx? (fun s => s.name == strTabSize b.strings) b.sections = none :=
      List.findIdx?_eq_none_iff.mpr (fun s hs => by
        simp only [beq_eq_false_iff_ne]
        exact Nat.ne_of_lt (hsec s hs))
    rw [h1, List.findIdx?_cons]
    simp
  · show ((b.sections ++ _ :: _)[b.sections.length]?).map _ = _
    rw [List.getElem?_append_right (Nat.le_refl _)]
    simp
  · intro hb
    show b.sections ++ _ :: ((if b.is64bit = true then _ else _) ++ _) = _
    rw [hb]
    simp

/-- A concrete 32-bit builder holding one relocation table named `".r"`
targeting section 0, for exercising the relocation-section theorem. -/
def relaWitnessBuilder : ElfBuilder :=
  (ElfBuilder.new .relocatable 243 false .little).add_relocation_table [46, 114] 0

/-- Witness for C3's amended theorem at `relaWitnessBuilder`. -/
theorem build_rela_sections_witness :
    ∃ b', buildFinalSections relaWitnessBuilder = some b'
      ∧ (relaWitnessBuilder.is64bit = false → ∀ i (hi : i < relaWitnessBuilder.relocations.length),
          b'.sections[relaWitnessBuilder.sections.length + 1 + i]? = some
            { name := relaWitnessBuilder.relocations[i].name,
              data := relaTableBytes relaWitnessBuilder.endianness
                relaWitnessBuilder.relocations[i].relocations,
              kind := .rela, flags := 0, vaddr := 0, entsize := 12, alignment := 0,
              info := relaWitnessBuilder.relocations[i].target_section })
      ∧ b'.find_section nameSymtab = some relaWitnessBuilder.sections.length
      ∧ (b'.sections[relaWitnessBuilder.sections.length]?.map (fun s => s.kind)
          = some SectionKind.symbolTable)
      ∧ (relaWitnessBuilder.is64bit = true →
          b'.sections = relaWitnessBuilder.sections
            ++ [{ name := strTabSize relaWitnessBuilder.strings,
                  data := [0, 0, 0, 0, 0, 0, 0, 0, 0, 0, 0, 0, 0, 0, 0, 0],
                  kind := .symbolTable, flags := 0, vaddr := 0, entsize := 24,
                  alignment := 0, info := relaWitnessBuilder.symbols.length },
                { name := strTabSize relaWitnessBuilder.strings + 8,
                  data := stringTableBytes (relaWitnessBuilder.strings
                    ++ [nameSymtab, nameStrtab]),
                  kind := .stringTable, flags := 0, vaddr := 0, info := 0,
                  entsize := 0, alignment := 0 }]) :=
  build_rela_sections relaWitnessBuilder
    [0, 0, 0, 0, 0, 0, 0, 0, 0, 0, 0, 0, 0, 0, 0, 0]
    (by decide) (by decide) (by decide) (by decide) (by decide) (by decide)

/-! ## Layout serialization (C4): headers and section-header tables -/

/-- `u16::try_from(..).unwrap()`: `none` models the panic. -/
def u16Checked (x : Nat) : Option Nat := if x < 2 ^ 16 then some x else none

/-- `u32::try_from(..).unwrap()`: `none` models the panic. -/
def u32Checked (x : Nat) : Option Nat := if x < 2 ^ 32 then some x else none

/-- `self.sections.iter().map(|s| s.data.len()).sum()`. -/
def ElfBuilder.totalDataLen (b : ElfBuilder) : Nat :=
  (b.sections.map (fun s => s.data.length)).sum

/-- The byte written for the byte-order mark (src/builder.rs:208-211). -/
def endiannessByte : Endianness → Nat
  | .little => 1
  | .big => 2

/-- `ElfBuilder::build_elf64_header` (src/builder.rs:248-292).  The
section-header-table offset written at byte 40 is
`sum(data lengths) + ELF64_HEADER_SIZE + ELF64_PROGRAM_HEADER_SIZE * count`. -/
def build_elf64_header (b : ElfBuilder) : Option (List Nat) := do
  let phnum ← u16Checked b.segCount
  let shnum ← u16Checked b.sections.length
  let strndx ← u16Checked (b.sections.length - 1)
  some (elfMagic ++ [2] ++ [endiannessByte b.endianness] ++ [1]
    ++ [0, 0, 0, 0, 0, 0, 0, 0, 0]
    ++ u16Bytes b.endianness b.kind.toU16
    ++ u16Bytes b.endianness b.machine
    ++ u32Bytes b.endianness 1
    ++ u64Bytes b.endianness b.entrypoint
    ++ (if b.segCount = 0 then [0, 0, 0, 0, 0, 0, 0, 0] else u64Bytes b.endianness 64)
    ++ u64Bytes b.endianness (b.totalDataLen + 64 + 56 * b.segCount)
    ++ [0, 0, 0, 0]
    ++ u16Bytes b.endianness 64
    ++ u16Bytes b.endianness 56
    ++ u16Bytes b.endianness phnum
    ++ u16Bytes b.endianness 64
    ++ u16Bytes b.endianness shnum
    ++ u16Bytes b.endianness strndx)

/-- `ElfBuilder::build_elf32_header` (src/builder.rs:202-246).  The entry
point is written `as u32` (truncating); the section-header-table offset at
byte 32 is `sum(data lengths) + ELF32_HEADER_SIZE +
ELF32_PROGRAM_HEADER_SIZE * count`, checked into u32. -/
def build_elf32_header (b : ElfBuilder) : Option (List Nat) := do
  let shoff ← u32Checked (b.totalDataLen + 52 + 32 * b.segCount)
  let phnum ← u16Checked b.segCount
  let shnum ← u16Checked b.sections.length
  let strndx ← u16Checked (b.sections.length - 1)
  some (elfMagic ++ [1] ++ [endiannessByte b.endianness] ++ [1]
    ++ [0, 0, 0, 0, 0, 0, 0, 0, 0]
    ++ u16Bytes b.endianness b.kind.toU16
    ++ u16Bytes b.endianness b.machine
    ++ u32Bytes b.endianness 1
    ++ u32Bytes b.endianness (b.entrypoint % 2 ^ 32)
    ++ (if b.segCount = 0 then [0, 0, 0, 0] else u32Bytes b.endianness 52)
    ++ u32Bytes b.endianness shoff
    ++ [0, 0, 0, 0]
    ++ u16Bytes b.endianness 52
    ++ u16Bytes b.endianness 32
    ++ u16Bytes b.endianness phnum
    ++ u16Bytes b.endianness 40
    ++ u16Bytes b.endianness shnum
    ++ u16Bytes b.endianness strndx)

/-- The `link` value of the section-header writers (src/builder.rs:414-420,
452-458): `.strtab`'s index for a symbol table, `.symtab`'s index for a Rela
section, 0 otherwise; `none` models the `unwrap` of the lookup. -/
def linkFor (b : ElfBuilder) (kind : SectionKind) : Option Nat :=
  match kind with
  | .symbolTable => b.find_section nameStrtab
  | .rela => b.find_section nameSymtab
  | _ => some 0

/-- One record of `build_elf64_section_headers` (src/builder.rs:438-465): the
offset field (at bytes 24..32) is 0 for a Null-kind section and the running
offset otherwise. -/
def shdrRecord64 (b : ElfBuilder) (s : BSection) (offset : Nat) : Option (List Nat) := do
  let name ← u32Checked s.name
  let link ← linkFor b s.kind
  let link ← u32Checked link
  some (u32Bytes b.endianness name
    ++ u32Bytes b.endianness s.kind.toU32
    ++ u64Bytes b.endianness s.flags
    ++ u64Bytes b.endianness s.vaddr
    ++ u64Bytes b.endianness (if s.kind = .null then 0 else offset)
    ++ u64Bytes b.endianness s.data.length
    ++ u32Bytes b.endianness link
    ++ u32Bytes b.endianness s.info
    ++ u64Bytes b.endianness s.alignment
    ++ u64Bytes b.endianness s.entsize)

/-- The fold of `build_elf64_section_headers` (src/builder.rs:433-469):
`offset` starts at `ELF64_HEADER_SIZE + ELF64_PROGRAM_HEADER_SIZE * count`
and advances by each section's data length. -/
def shdrs64 (b : ElfBuilder) : List BSection → Nat → Option (List Nat)
  | [], _ => some []
  | s :: rest, offset => do
      let r ← shdrRecord64 b s offset
      let tail ← shdrs64 b rest (offset + s.data.length)
      some (r ++ tail)

/-- `ElfBuilder::build_elf64_section_headers` (src/builder.rs:433-469). -/
def build_elf64_section_headers (b : ElfBuilder) : Option (List Nat) :=
  shdrs64 b b.sections (64 + 56 * b.segCount)

/-- One record of `build_elf32_section_headers` (src/builder.rs:400-427): the
offset field is at bytes 16..20; the u32 narrowing of name, vaddr, size,
link, alignment and entry size is checked (`none` = panic), while the running
offset itself is a u32 written with wrap-around semantics. -/
def shdrRecord32 (b : ElfBuilder) (s : BSection) (offset : Nat) : Option (List Nat) := do
  let name ← u32Checked s.name
  let vaddr ← u32Checked s.vaddr
  let size ← u32Checked s.data.length
  let link ← linkFor b s.kind
  let link ← u32Checked link
  let align ← u32Checked s.alignment
  let ents ← u32Checked s.entsize
  some (u32Bytes b.endianness name
    ++ u32Bytes b.endianness s.kind.toU32
    ++ u32Bytes b.endianness s.flags
    ++ u32Bytes b.endianness vaddr
    ++ u32Bytes b.endianness (if s.kind = .null then 0 else offset)
    ++ u32Bytes b.endianness size
    ++ u32Bytes b.endianness link
    ++ u32Bytes b.endianness s.info
    ++ u32Bytes b.endianness align
    ++ u32Bytes b.endianness ents)

/-- The fold of `build_elf32_section_headers` (src/builder.rs:395-431). -/
def shdrs32 (b : ElfBuilder) : List BSection → Nat → Option (List Nat)
  | [], _ => some []
  | s :: rest, offset => do
      let r ← shdrRecord32 b s offset
      let tail ← shdrs32 b rest (offset + s.data.length)
      some (r ++ tail)

/-- `ElfBuilder::build_elf32_section_headers` (src/builder.rs:395-431). -/
def build_elf32_section_headers (b : ElfBuilder) : Option (List Nat) :=
  shdrs32 b b.sections (52 + 32 * b.segCount)

theorem u16Bytes_length (e : Endianness) (v : Nat) : (u16Bytes e v).length = 2 := by
  cases e <;> rfl

theorem u32Bytes_length (e : Endianness) (v : Nat) : (u32Bytes e v).length = 4 := by
  cases e <;> rfl

theorem u64Bytes_length (e : Endianness) (v : Nat) : (u64Bytes e v).length = 8 := by
  cases e <;> rfl

/-- Extracting a fixed-position field out of a concatenation. -/
theorem extract_at (out A B C : List Nat) (n k : Nat) (hout : out = A ++ (B ++ C))
    (hA : A.length = n) (hB : B.length = k) : (out.drop n).take k = B := by
  subst hout
  subst hA
  subst hB
  rw [List.drop_left, List.take_left]

theorem shdrRecord64_spec (b : ElfBuilder) (s : BSection) (offset : Nat) (r : List Nat)
    (h : shdrRecord64 b s offset = some r) :
    r.length = 64
    ∧ (r.drop 24).take 8 = u64Bytes b.endianness (if s.kind = .null then 0 else offset) := by
  rw [shdrRecord64] at h
  rcases hname : u32Checked s.name with - | name
  · rw [hname] at h
    simp only [Bind.bind, Option.bind] at h
    exact Option.noConfusion h
  rw [hname] at h
  simp only [Bind.bind, Option.bind] at h
  rcases hlink : linkFor b s.kind with - | link
  · rw [hlink] at h
    simp only [Bind.bind, Option.bind] at h
    exact Option.noConfusion h
  rw [hlink] at h
  simp only [Bind.bind, Option.bind] at h
  rcases hlink2 : u32Checked link with - | link2
  · rw [hlink2] at h
    simp only [Bind.bind, Option.bind] at h
    exact Option.noConfusion h
  rw [hlink2] at h
  simp only [Bind.bind, Option.bind, Option.some_inj] at h
  subst h
  constructor
  · simp [u16Bytes_length, u32Bytes_length, u64Bytes_length]
  · refine extract_at _
      (u32Bytes b.endianness name ++ u32Bytes b.endianness s.kind.toU32
        ++ u64Bytes b.endianness s.flags ++ u64Bytes b.endianness s.vaddr)
      (u64Bytes b.endianness (if s.kind = .null then 0 else offset))
      (u64Bytes b.endianness s.data.length ++ u32Bytes b.endianness link2
        ++ u32Bytes b.endianness s.info ++ u64Bytes b.endianness s.alignment
        ++ u64Bytes b.endianness s.entsize)
      24 8 (by simp [List.append_assoc]) ?_ (u64Bytes_length _ _)
    simp [u32Bytes_length, u64Bytes_length]

theorem shdrRecord32_spec (b : ElfBuilder) (s : BSection) (offset : Nat) (r : List Nat)
    (h : shdrRecord32 b s offset = some r) :
    r.length = 40
    ∧ (r.drop 16).take 4 = u32Bytes b.endianness (if s.kind = .null then 0 else offset) := by
  rw [shdrRecord32] at h
  rcases hname : u32Checked s.name with - | name
  · rw [hname] at h
    simp only [Bind.bind, Option.bind] at h
    exact Option.noConfusion h
  rw [hname] at h
  simp only [Bind.bind, Option.bind] at h
  rcases hv : u32Checked s.vaddr with - | vaddr
  · rw [hv] at h
    simp only [Bind.bind, Option.bind] at h
    exact Option.noConfusion h
  rw [hv] at h
  simp only [Bind.bind, Option.bind] at h
  rcases hsz : u32Checked s.data.length with - | size
  · rw [hsz] at h
    simp only [Bind.bind, Option.bind] at h
    exact Option.noConfusion h
  rw [hsz] at h
  simp only [Bind.bind, Option.bind] at h
  rcases hlink : linkFor b s.kind with - | link
  · rw [hlink] at h
    simp only [Bind.bind, Option.bind] at h
    exact Option.noConfusion h
  rw [hlink] at h
  simp only [Bind.bind, Option.bind] at h
  rcases hlink2 : u32Checked link with - | link2
  · rw [hlink2] at h
    simp only [Bind.bind, Option.bind] at h
    exact Option.noConfusion h
  rw [hlink2] at h
  simp only [Bind.bind, Option.bind] at h
  rcases hal : u32Checked s.alignment with - | align
  · rw [hal] at h
    simp only [Bind.bind, Option.bind] at h
    exact Option.noConfusion h
  rw [hal] at h
  simp only [Bind.bind, Option.bind] at h
  rcases hes : u32Checked s.entsize with - | ents
  · rw [hes] at h
    simp only [Bind.bind, Option.bind] at h
    exact Option.noConfusion h
  rw [hes] at h
  simp only [Bind.bind, Option.bind, Option.some_inj] at h
  subst h
  constructor
  · simp [u32Bytes_length]
  · refine extract_at _
      (u32Bytes b.endianness name ++ u32Bytes b.endianness s.kind.toU32
        ++ u32Bytes b.endianness s.flags ++ u32Bytes b.endianness vaddr)
      (u32Bytes b.endianness (if s.kind = .null then 0 else offset))
      (u32Bytes b.endianness size ++ u32Bytes b.endianness link2
        ++ u32Bytes b.endianness s.info ++ u32Bytes b.endianness align
        ++ u32Bytes b.endianness ents)
      16 4 (by simp [List.append_assoc]) ?_ (u32Bytes_length _ _)
    simp [u32Bytes_length]

theorem shdrs64_spec (b : ElfBuilder) (l : List BSection) (offset : Nat) (out : List Nat)
    (h : shdrs64 b l offset = some out) :
    out.length = 64 * l.length
    ∧ ∀ i (hi : i < l.length),
      (out.drop (64 * i + 24)).take 8 = u64Bytes b.endianness
        (if l[i].kind = .null then 0
         else offset + ((l.take i).map (fun s => s.data.length)).sum) := by
  induction l generalizing offset out with
  | nil =>
      rw [shdrs64, Option.some_inj] at h
      subst h
      exact ⟨rfl, fun i hi => absurd hi (by simp)⟩
  | cons s rest ih =>
      rw [shdrs64] at h
      rcases hr : shdrRecord64 b s offset with - | r <;> rw [hr] at h
      · exact absurd h (by simp [Bind.bind, Option.bind])
      rcases htail : shdrs64 b rest (offset + s.data.length) with - | tail <;> rw [htail] at h
      · exact absurd h (by simp [Bind.bind, Option.bind])
      simp only [Bind.bind, Option.bind, Option.some_inj] at h
      subst h
      obtain ⟨hrlen, hrfield⟩ := shdrRecord64_spec b s offset r hr
      obtain ⟨htlen, htfield⟩ := ih _ _ htail
      constructor
      · simp [hrlen, htlen]
        ring
      · intro i hi
        cases i with
        | zero =>
            have hd : (r ++ tail).drop 24 = r.drop 24 ++ tail := by
              rw [List.drop_append_of_le_length (by omega)]
            rw [Nat.mul_zero, Nat.zero_add, hd]
            rw [List.take_append_of_le_length (by rw [List.length_drop, hrlen]; omega)]
            rw [hrfield]
            simp
        | succ j =>
            have harith : 64 * (j + 1) + 24 = r.length + (64 * j + 24) := by
              rw [hrlen]
              ring
            rw [harith, List.drop_append]
            have hj : j < rest.length := by
              simpa using hi
            rw [htfield j hj]
            simp only [List.getElem_cons_succ, List.take_succ_cons, List.map_cons,
              List.sum_cons]
            rw [Nat.add_assoc]

theorem shdrs32_spec (b : ElfBuilder) (l : List BSection) (offset : Nat) (out : List Nat)
    (h : shdrs32 b l offset = some out) :
    out.length = 40 * l.length
    ∧ ∀ i (hi : i < l.length),
      (out.drop (40 * i + 16)).take 4 = u32Bytes b.endianness
        (if l[i].kind = .null then 0
         else offset + ((l.take i).map (fun s => s.data.length)).sum) := by
  induction l generalizing offset out with
  | nil =>
      rw [shdrs32, Option.some_inj] at h
      subst h
      exact ⟨rfl, fun i hi => absurd hi (by simp)⟩
  | cons s rest ih =>
      rw [shdrs32] at h
      rcases hr : shdrRecord32 b s offset with - | r <;> rw [hr] at h
      · exact absurd h (by simp [Bind.bind, Option.bind])
      rcases htail : shdrs32 b rest (offset + s.data.length) with - | tail <;> rw [htail] at h
      · exact absurd h (by simp [Bind.bind, Option.bind])
      simp only [Bind.bind, Option.bind, Option.some_inj] at h
      subst h
      obtain ⟨hrlen, hrfield⟩ := shdrRecord32_spec b s offset r hr
      obtain ⟨htlen, htfield⟩ := ih _ _ htail
      constructor
      · simp [hrlen, htlen]
        ring
      · intro i hi
        cases i with
        | zero =>
            have hd : (r ++ tail).drop 16 = r.drop 16 ++ tail := by
              rw [List.drop_append_of_le_length (by omega)]
            rw [Nat.mul_zero, Nat.zero_add, hd]
            rw [List.take_append_of_le_length (by rw [List.length_drop, hrlen]; omega)]
            rw [hrfield]
            simp
        | succ j =>
            have harith : 40 * (j + 1) + 16 = r.length + (40 * j + 16) := by
              rw [hrlen]
              ring
            rw [harith, List.drop_append]
            have hj : j < rest.length := by
              simpa using hi
            rw [htfield j hj]
            simp only [List.getElem_cons_succ, List.take_succ_cons, List.map_cons,
              List.sum_cons]
            rw [Nat.add_assoc]

theorem build_elf64_header_shoff (b : ElfBuilder) (out : List Nat)
    (h : build_elf64_header b = some out) :
    (out.drop 40).take 8
      = u64Bytes b.endianness (b.totalDataLen + 64 + 56 * b.segCount) := by
  rw [build_elf64_header] at h
  rcases h1 : u16Checked b.segCount with - | phnum
  · rw [h1] at h
    simp only [Bind.bind, Option.bind] at h
    exact Option.noConfusion h
  rw [h1] at h
  simp only [Bind.bind, Option.bind] at h
  rcases h2 : u16Checked b.sections.length with - | shnum
  · rw [h2] at h
    simp only [Bind.bind, Option.bind] at h
    exact Option.noConfusion h
  rw [h2] at h
  simp only [Bind.bind, Option.bind] at h
  rcases h3 : u16Checked (b.sections.length - 1) with - | strndx
  · rw [h3] at h
    simp only [Bind.bind, Option.bind] at h
    exact Option.noConfusion h
  rw [h3] at h
  simp only [Bind.bind, Option.bind, Option.some_inj] at h
  subst h
  refine extract_at _
    (elfMagic ++ [2] ++ [endiannessByte b.endianness] ++ [1]
      ++ [0, 0, 0, 0, 0, 0, 0, 0, 0]
      ++ u16Bytes b.endianness b.kind.toU16 ++ u16Bytes b.endianness b.machine
      ++ u32Bytes b.endianness 1 ++ u64Bytes b.endianness b.entrypoint
      ++ (if b.segCount = 0 then [0, 0, 0, 0, 0, 0, 0, 0] else u64Bytes b.endianness 64))
    (u64Bytes b.endianness (b.totalDataLen + 64 + 56 * b.segCount))
    ([0, 0, 0, 0] ++ u16Bytes b.endianness 64 ++ u16Bytes b.endianness 56
      ++ u16Bytes b.endianness phnum ++ u16Bytes b.endianness 64
      ++ u16Bytes b.endianness shnum ++ u16Bytes b.endianness strndx)
    40 8 (by simp [List.append_assoc]) ?_ (u64Bytes_length _ _)
  by_cases hc : b.segCount = 0 <;>
    simp [hc, elfMagic, u16Bytes_length, u32Bytes_length, u64Bytes_length]

theorem build_elf32_header_shoff (b : ElfBuilder) (out : List Nat)
    (h : build_elf32_header b = some out) :
    (out.drop 32).take 4
      = u32Bytes b.endianness (b.totalDataLen + 52 + 32 * b.segCount) := by
  rw [build_elf32_header] at h
  rcases h0 : u32Checked (b.totalDataLen + 52 + 32 * b.segCount) with - | shoff
  · rw [h0] at h
    simp only [Bind.bind, Option.bind] at h
    exact Option.noConfusion h
  rw [h0] at h
  simp only [Bind.bind, Option.bind] at h
  rcases h1 : u16Checked b.segCount with - | phnum
  · rw [h1] at h
    simp only [Bind.bind, Option.bind] at h
    exact Option.noConfusion h
  rw [h1] at h
  simp only [Bind.bind, Option.bind] at h
  rcases h2 : u16Checked b.sections.length with - | shnum
  · rw [h2] at h
    simp only [Bind.bind, Option.bind] at h
    exact Option.noConfusion h
  rw [h2] at h
  simp only [Bind.bind, Option.bind] at h
  rcases h3 : u16Checked (b.sections.length - 1) with - | strndx
  · rw [h3] at h
    simp only [Bind.bind, Option.bind] at h
    exact Option.noConfusion h
  rw [h3] at h
  simp only [Bind.bind, Option.bind, Option.some_inj] at h
  have hval : shoff = b.totalDataLen + 52 + 32 * b.segCount := by
    rw [u32Checked] at h0
    by_cases hlt : b.totalDataLen + 52 + 32 * b.segCount < 2 ^ 32
    · rw [if_pos hlt, Option.some_inj] at h0
      omega
    · rw [if_neg hlt] at h0
      exact Option.noConfusion h0
  subst h
  rw [← hval]
  refine extract_at _
    (elfMagic ++ [1] ++ [endiannessByte b.endianness] ++ [1]
      ++ [0, 0, 0, 0, 0, 0, 0, 0, 0]
      ++ u16Bytes b.endianness b.kind.toU16 ++ u16Bytes b.endianness b.machine
      ++ u32Bytes b.endianness 1 ++ u32Bytes b.endianness (b.entrypoint % 2 ^ 32)
      ++ (if b.segCount = 0 then [0, 0, 0, 0] else u32Bytes b.endianness 52))
    (u32Bytes b.endianness shoff)
    ([0, 0, 0, 0] ++ u16Bytes b.endianness 52 ++ u16Bytes b.endianness 32
      ++ u16Bytes b.endianness phnum ++ u16Bytes b.endianness 40
      ++ u16Bytes b.endianness shnum ++ u16Bytes b.endianness strndx)
    32 4 (by simp [List.append_assoc]) ?_ (u32Bytes_length _ _)
  by_cases hc : b.segCount = 0 <;>
    simp [hc, elfMagic, u16Bytes_length, u32Bytes_length]

/-- C4: In the built output, file offsets are assigned to sections in a single
left-to-right pass in declaration order: in both the 64-bit and 32-bit
section-header tables, the i-th header's recorded offset field equals the
header size, plus the program-header-table size (entry size times segment
count, 0 when no segments exist), plus the total data length of all sections
declared before it — except that a null-type section's recorded offset is
written as 0 regardless — and the header's section-header-table offset field
equals the header size plus the program-header-table size plus the sum of all
section data lengths. -/
theorem layout_offsets (b : ElfBuilder) :
    (∀ out, build_elf64_header b = some out →
        (out.drop 40).take 8
          = u64Bytes b.endianness (64 + 56 * b.segCount + b.totalDataLen))
    ∧ (∀ out, build_elf32_header b = some out →
        (out.drop 32).take 4
          = u32Bytes b.endianness (52 + 32 * b.segCount + b.totalDataLen))
    ∧ (∀ out, build_elf64_section_headers b = some out →
        ∀ i (hi : i < b.sections.length),
          (out.drop (64 * i + 24)).take 8 = u64Bytes b.endianness
            (if b.sections[i].kind = .null then 0
             else 64 + 56 * b.segCount
               + ((b.sections.take i).map (fun s => s.data.length)).sum))
    ∧ (∀ out, build_elf32_section_headers b = some out →
        ∀ i (hi : i < b.sections.length),
          (out.drop (40 * i + 16)).take 4 = u32Bytes b.endianness
            (if b.sections[i].kind = .null then 0
             else 52 + 32 * b.segCount
               + ((b.sections.take i).map (fun s => s.data.length)).sum)) := by
  refine ⟨?_, ?_, ?_, ?_⟩
  · intro out h
    rw [build_elf64_header_shoff b out h]
    have : b.totalDataLen + 64 + 56 * b.segCount
        = 64 + 56 * b.segCount + b.totalDataLen := by omega
    rw [this]
  · intro out h
    rw [build_elf32_header_shoff b out h]
    have : b.totalDataLen + 52 + 32 * b.segCount
        = 52 + 32 * b.segCount + b.totalDataLen := by omega
    rw [this]
  · intro out h i hi
    exact (shdrs64_spec b b.sections (64 + 56 * b.segCount) out h).2 i hi
  · intro out h i hi
    exact (shdrs32_spec b b.sections (52 + 32 * b.segCount) out h).2 i hi

/-- A concrete 64-bit big-endian executable builder with one Alloc-flagged
3-data-byte section after the null section (so one derived segment). -/
def layoutWitnessBuilder : ElfBuilder :=
  { ElfBuilder.new .executable 243 true .big with
    sections := (ElfBuilder.new .executable 243 true .big).sections
      ++ [⟨[1, 2, 3], 0, .progbits, 2, 4096, 0, 0, 0⟩] }

/-- Witness for C4 at `layoutWitnessBuilder`: the header records the section
header table at `64 + 56*1 + 3`, the null section's offset field is 0, and
the second section's offset field is `64 + 56*1 + 0`. -/
theorem layout_offsets_witness :
    (build_elf64_header layoutWitnessBuilder).map (fun out => (out.drop 40).take 8)
      = some (u64Bytes .big (64 + 56 * layoutWitnessBuilder.segCount
          + layoutWitnessBuilder.totalDataLen))
    ∧ (build_elf64_section_headers layoutWitnessBuilder).map
        (fun out => (out.drop 24).take 8) = some (u64Bytes .big 0)
    ∧ (build_elf64_section_headers layoutWitnessBuilder).map
        (fun out => (out.drop (64 * 1 + 24)).take 8)
      = some (u64Bytes .big (64 + 56 * layoutWitnessBuilder.segCount
          + ((layoutWitnessBuilder.sections.take 1).map (fun s => s.data.length)).sum)) := by
  have h := layout_offsets layoutWitnessBuilder
  refine ⟨?_, ?_, ?_⟩
  · rcases hh : build_elf64_header layoutWitnessBuilder with - | out
    · exact absurd hh (by decide)
    show some ((out.drop 40).take 8) = _
    rw [h.1 out hh]
    rfl
  · rcases hh : build_elf64_section_headers layoutWitnessBuilder with - | out
    · exact absurd hh (by decide)
    show some ((out.drop 24).take 8) = _
    have := h.2.2.1 out hh 0 (by decide)
    simpa using this
  · rcases hh : build_elf64_section_headers layoutWitnessBuilder with - | out
    · exact absurd hh (by decide)
    show some ((out.drop (64 * 1 + 24)).take 8) = _
    rw [h.2.2.1 out hh 1 (by decide)]
    rfl

end Eelf
